import Mathlib

/-!
# Verification of the odbc_viewer core against its specification

Shallow embedding of the repository's core logic:

* `core/cache.py` — `DFCache`: a fixed-capacity LRU cache over an insertion-
  ordered map (`collections.OrderedDict`), plus the `make_key` fingerprint.
* `core/sqlbuilder.py` — `SQLBuilder`: compiles a declarative view plus
  runtime parameters into a SQL string and an ordered bind list.
* `ui/models.py` — `ColumnFilterProxyModel`: compiles per-column filter
  expressions into predicates and evaluates them against cell strings.

Conventions used throughout:
* Python dicts whose keys are fixed in the source are translated to Lean
  structures; dicts used as key-value maps are translated to association
  lists in insertion order.
* Python `None` is `Option.none` (for arguments that may be absent) or the
  explicit `PyVal.none` value (for JSON-like runtime values).
* Fallible code returns `Option`/`Except`.
-/

namespace OdbcViewer

/-! ## core/cache.py — the LRU cache `DFCache`

The Python class keeps `self._store`, an `OrderedDict` mapping key to
DataFrame; the first entry is the least recently used.  We model the ordered
dict as an association list in recency order (head = LRU, last = MRU), and
the stored DataFrame as an arbitrary type `α`.  `OrderedDict` keys are
unique, so `pop(key)` removes exactly the entry(ies) with that key; we model
it with `List.filter`, which agrees with `pop` on every store whose keys are
distinct (every store reachable from `__init__` is such). -/

/-- Key membership test for the ordered store (`key in self._store`). -/
def containsKey {α : Type} (store : List (String × α)) (k : String) : Bool :=
  store.any (fun e => e.1 = k)

/-- First-match lookup in the ordered store (`self._store[key]`). -/
def lookupKey {α : Type} (store : List (String × α)) (k : String) : Option α :=
  match store with
  | [] => Option.none
  | e :: rest => if e.1 = k then some e.2 else lookupKey rest k

/-- Removal of a key from the ordered store (`self._store.pop(key)`;
`OrderedDict` keys are unique, so filtering out the key is the same as
popping its single entry). -/
def eraseKey {α : Type} (store : List (String × α)) (k : String) :
    List (String × α) :=
  store.filter (fun e => e.1 ≠ k)

/-- `DFCache` state: the capacity fixed at construction, and the ordered
store (head = least recently used). -/
structure DFCache (α : Type) where
  capacity : Nat
  store : List (String × α)

namespace DFCache

/-- `DFCache.__init__`: `self.capacity = max(1, int(capacity))`,
`self._store = OrderedDict()`.  The argument is already an integer. -/
def init (α : Type) (capacity : Int) : DFCache α :=
  { capacity := (max 1 capacity).toNat, store := [] }

/-- `DFCache.get`: on a hit pop the entry and re-append it (move to
most-recently-used), returning the value; on a miss return `None`. -/
def get {α : Type} (c : DFCache α) (k : String) : Option α × DFCache α :=
  match lookupKey c.store k with
  | some df => (some df, { c with store := eraseKey c.store k ++ [(k, df)] })
  | Option.none => (Option.none, c)

/-- `DFCache.set`: pop the key if present, append the new entry at the
most-recently-used end, then evict the least-recently-used entry
(`popitem(last=False)`, i.e. the head) if the store exceeds capacity. -/
def set {α : Type} (c : DFCache α) (k : String) (v : α) : DFCache α :=
  let s1 := if containsKey c.store k then eraseKey c.store k else c.store
  let s2 := s1 ++ [(k, v)]
  { c with store := if s2.length > c.capacity then s2.tail else s2 }

/-- `DFCache.clear`: `self._store.clear()`. -/
def clear {α : Type} (c : DFCache α) : DFCache α :=
  { c with store := [] }

end DFCache

/-- One cache operation, for stating trace properties over `DFCache`. -/
inductive CacheOp (α : Type) where
  | get (k : String)
  | set (k : String) (v : α)
  | clear

/-- Apply one operation to a cache state (the returned value of `get` is
discarded; only the state evolution matters here). -/
def applyOp {α : Type} (c : DFCache α) : CacheOp α → DFCache α
  | CacheOp.get k => (c.get k).2
  | CacheOp.set k v => c.set k v
  | CacheOp.clear => c.clear

/-- Run a sequence of cache operations from a starting state. -/
def runOps {α : Type} (c : DFCache α) (ops : List (CacheOp α)) : DFCache α :=
  ops.foldl applyOp c

/-! Basic facts about the cache operations. -/

theorem lookupKey_isSome_iff_containsKey {α : Type}
    (store : List (String × α)) (k : String) :
    (lookupKey store k).isSome = containsKey store k := by
  induction store with
  | nil => rfl
  | cons e rest ih =>
    by_cases h : e.1 = k
    · simp [lookupKey, containsKey, h]
    · simpa [lookupKey, containsKey, h] using ih

theorem length_eraseKey_le {α : Type} (store : List (String × α))
    (k : String) : (eraseKey store k).length ≤ store.length :=
  List.length_filter_le _ _

theorem length_eraseKey_lt_of_contains {α : Type}
    (store : List (String × α)) (k : String)
    (h : containsKey store k = true) :
    (eraseKey store k).length < store.length := by
  induction store with
  | nil => simp [containsKey] at h
  | cons e rest ih =>
    by_cases he : e.1 = k
    · simp only [eraseKey, List.filter]
      have : (decide (e.1 ≠ k)) = false := by simp [he]
      rw [this]
      simp only [List.length_cons]
      exact Nat.lt_succ_of_le (List.length_filter_le _ _)
    · simp only [containsKey, List.any_cons] at h
      have hrest : containsKey rest k = true := by
        rcases Bool.or_eq_true_iff.mp h with h1 | h2
        · exact absurd (by simpa using h1) he
        · simpa [containsKey] using h2
      simp only [eraseKey, List.filter]
      have : (decide (e.1 ≠ k)) = true := by simp [he]
      rw [this]
      simp only [List.length_cons]
      exact Nat.succ_lt_succ (ih hrest)

/-- A `get` never changes the number of resident entries. -/
theorem length_get {α : Type} (c : DFCache α) (k : String) :
    (c.get k).2.store.length ≤ c.store.length := by
  unfold DFCache.get
  cases h : lookupKey c.store k with
  | none => simp
  | some df =>
    simp only [List.length_append, List.length_cons, List.length_nil]
    have hc : containsKey c.store k = true := by
      have := lookupKey_isSome_iff_containsKey c.store k
      rw [h] at this
      simpa using this.symm
    have := length_eraseKey_lt_of_contains c.store k hc
    omega

/-- A `set` keeps the store within capacity whenever it was within capacity
before (capacity ≥ 1 is not even needed for the bound). -/
theorem length_set_le {α : Type} (c : DFCache α) (k : String) (v : α)
    (h : c.store.length ≤ c.capacity) :
    (c.set k v).store.length ≤ c.capacity := by
  unfold DFCache.set
  simp only
  by_cases hck : containsKey c.store k = true
  · rw [if_pos hck]
    have h1 := length_eraseKey_lt_of_contains c.store k hck
    by_cases h2 : (eraseKey c.store k ++ [(k, v)]).length > c.capacity
    · rw [if_pos h2]
      simp only [List.length_tail, List.length_append, List.length_cons,
        List.length_nil] at *
      omega
    · rw [if_neg h2]
      omega
  · rw [if_neg hck]
    by_cases h2 : (c.store ++ [(k, v)]).length > c.capacity
    · rw [if_pos h2]
      simp only [List.length_tail, List.length_append, List.length_cons,
        List.length_nil] at *
      omega
    · rw [if_neg h2]
      omega

/-- Every reachable cache state respects the capacity bound. -/
theorem length_runOps_le {α : Type} (c : DFCache α)
    (ops : List (CacheOp α)) (h : c.store.length ≤ c.capacity) :
    (runOps c ops).store.length ≤ (runOps c ops).capacity := by
  induction ops generalizing c with
  | nil => simpa [runOps]
  | cons op rest ih =>
    have hstep : (applyOp c op).store.length ≤ (applyOp c op).capacity := by
      cases op with
      | get k =>
        have := length_get c k
        have hcap : (applyOp c (CacheOp.get k)).capacity = c.capacity := by
          cases h' : lookupKey c.store k <;>
            simp [applyOp, DFCache.get, h']
        rw [hcap]
        exact le_trans (by simpa [applyOp] using this) h
      | set k v =>
        have := length_set_le c k v h
        simpa [applyOp, DFCache.set]
      | clear => simp [applyOp, DFCache.clear]
    have : runOps c (op :: rest) = runOps (applyOp c op) rest := rfl
    rw [this]
    exact ih (applyOp c op) hstep

/-- A list of `set` operations, one per key/value pair, in order. -/
def setsOps {α : Type} (kvs : List (String × α)) : List (CacheOp α) :=
  kvs.map (fun p => CacheOp.set p.1 p.2)

theorem capacity_applyOp {α : Type} (c : DFCache α) (op : CacheOp α) :
    (applyOp c op).capacity = c.capacity := by
  cases op with
  | get k => cases h : lookupKey c.store k <;> simp [applyOp, DFCache.get, h]
  | set k v => rfl
  | clear => rfl

theorem capacity_runOps {α : Type} (c : DFCache α) (ops : List (CacheOp α)) :
    (runOps c ops).capacity = c.capacity := by
  induction ops generalizing c with
  | nil => rfl
  | cons op rest ih =>
    have : runOps c (op :: rest) = runOps (applyOp c op) rest := rfl
    rw [this, ih, capacity_applyOp]

theorem containsKey_append {α : Type} (l1 l2 : List (String × α))
    (k : String) :
    containsKey (l1 ++ l2) k = (containsKey l1 k || containsKey l2 k) := by
  simp [containsKey, List.any_append]

theorem containsKey_tail {α : Type} (l : List (String × α)) (k : String)
    (h : containsKey l.tail k = true) : containsKey l k = true := by
  cases l with
  | nil => simp [containsKey] at h
  | cons e rest =>
    simp only [List.tail_cons] at h
    simp [containsKey, List.any_cons] at h ⊢
    right
    simpa [containsKey] using h

theorem containsKey_of_eraseKey {α : Type} (l : List (String × α))
    (k' x : String) (h : containsKey (eraseKey l k') x = true) :
    containsKey l x = true := by
  simp only [containsKey, eraseKey, List.any_eq_true] at h ⊢
  obtain ⟨e, he, hx⟩ := h
  exact ⟨e, List.mem_of_mem_filter he, hx⟩

theorem containsKey_eraseKey_ne {α : Type} (l : List (String × α))
    (k' x : String) (h : x ≠ k') :
    containsKey (eraseKey l k') x = containsKey l x := by
  induction l with
  | nil => rfl
  | cons e rest ih =>
    simp only [eraseKey, List.filter, containsKey, List.any_cons]
    by_cases he : e.1 = k'
    · have h1 : (decide (e.1 ≠ k')) = false := by simp [he]
      rw [h1]
      have h2 : (decide (e.1 = x)) = false := by
        simp only [decide_eq_false_iff_not]
        intro hc
        exact h (by rw [← hc, he])
      rw [h2]
      simpa [containsKey, eraseKey] using ih
    · have h1 : (decide (e.1 ≠ k')) = true := by simp [he]
      rw [h1]
      simp only [List.any_cons]
      have hrest := ih
      simp only [containsKey, eraseKey] at hrest
      rw [hrest]

/-- How `set` rewrites the store when the key is absent: append, then maybe
drop the head. -/
theorem set_store_fresh {α : Type} (cap : Nat) (store : List (String × α))
    (k : String) (v : α) (hk : containsKey store k = false) :
    DFCache.set ⟨cap, store⟩ k v =
      ⟨cap, if (store ++ [(k, v)]).length > cap then (store ++ [(k, v)]).tail
            else store ++ [(k, v)]⟩ := by
  simp [DFCache.set, eraseKey, hk]

/-- A `set` of a key absent from a full store appends the new entry and
evicts exactly the head (the least-recently-used entry). -/
theorem set_fresh_full {α : Type} (c : DFCache α) (k : String) (v : α)
    (hfresh : containsKey c.store k = false)
    (hfull : c.store.length = c.capacity) (hcap : 1 ≤ c.capacity) :
    (c.set k v).store = c.store.tail ++ [(k, v)] ∧
      (c.set k v).store.length = c.capacity := by
  have hc : c = ⟨c.capacity, c.store⟩ := rfl
  rw [hc, set_store_fresh c.capacity c.store k v hfresh]
  have hgt : (c.store ++ [(k, v)]).length > c.capacity := by
    simp only [List.length_append, List.length_cons, List.length_nil]
    omega
  simp only [if_pos hgt]
  cases hs : c.store with
  | nil =>
    exfalso
    rw [hs] at hfull
    simp at hfull
    omega
  | cons e rest =>
    constructor
    · simp
    · rw [hs] at hfull
      simp at hfull ⊢
      omega

/-- Keys resident after a fresh-key `set` were resident before, or are the
newly inserted key. -/
theorem containsKey_set_fresh_sub {α : Type} (cap : Nat)
    (store : List (String × α)) (k : String) (v : α) (x : String)
    (hk : containsKey store k = false)
    (hx : containsKey (DFCache.set ⟨cap, store⟩ k v).store x = true) :
    containsKey store x = true ∨ x = k := by
  rw [set_store_fresh cap store k v hk] at hx
  simp only at hx
  by_cases hgt : (store ++ [(k, v)]).length > cap
  · rw [if_pos hgt] at hx
    have := containsKey_tail _ _ hx
    rw [containsKey_append] at this
    rcases Bool.or_eq_true_iff.mp this with h1 | h2
    · exact Or.inl h1
    · right
      have : k = x := by simpa [containsKey] using h2
      exact this.symm
  · rw [if_neg hgt] at hx
    rw [containsKey_append] at hx
    rcases Bool.or_eq_true_iff.mp hx with h1 | h2
    · exact Or.inl h1
    · right
      have : k = x := by simpa [containsKey] using h2
      exact this.symm

/-- Inserting a sequence of pairwise-distinct keys, all absent from the
store, grows the store until it saturates at the capacity. -/
theorem length_runOps_fresh {α : Type} (kvs : List (String × α))
    (cap : Nat) (store : List (String × α))
    (hfresh : ∀ p ∈ kvs, containsKey store p.1 = false)
    (hnd : (kvs.map Prod.fst).Nodup)
    (hle : store.length ≤ cap) :
    (runOps ⟨cap, store⟩ (setsOps kvs)).store.length =
      min (store.length + kvs.length) cap := by
  induction kvs generalizing store with
  | nil =>
    simp only [runOps, setsOps, List.map_nil, List.foldl_nil, List.length_nil,
      Nat.add_zero]
    omega
  | cons p rest ih =>
    obtain ⟨k, v⟩ := p
    have hk : containsKey store k = false := hfresh (k, v) (by simp)
    have hrun : runOps (⟨cap, store⟩ : DFCache α) (setsOps ((k, v) :: rest)) =
        runOps (DFCache.set ⟨cap, store⟩ k v) (setsOps rest) := rfl
    have hset := set_store_fresh cap store k v hk
    have hfresh' : ∀ q ∈ rest,
        containsKey (DFCache.set ⟨cap, store⟩ k v).store q.1 = false := by
      intro q hq
      cases h : containsKey (DFCache.set ⟨cap, store⟩ k v).store q.1 with
      | false => rfl
      | true =>
        exfalso
        rcases containsKey_set_fresh_sub cap store k v q.1 hk h with h1 | h2
        · have h0 := hfresh q (List.mem_cons_of_mem _ hq)
          rw [h0] at h1
          exact Bool.false_ne_true h1
        · have hknm : k ∉ rest.map Prod.fst :=
            (List.nodup_cons.mp (by simpa using hnd)).1
          exact hknm (h2 ▸ List.mem_map_of_mem Prod.fst hq)
    have hnd' : (rest.map Prod.fst).Nodup :=
      (List.nodup_cons.mp (by simpa using hnd)).2
    by_cases hgt : (store ++ [(k, v)]).length > cap
    · have hfull : store.length = cap := by
        simp only [List.length_append, List.length_cons, List.length_nil]
          at hgt
        omega
      have hstore2 : (DFCache.set ⟨cap, store⟩ k v).store =
          (store ++ [(k, v)]).tail := by
        rw [hset]
        simp only [if_pos hgt]
      have hlen : (DFCache.set ⟨cap, store⟩ k v).store.length = cap := by
        rw [hstore2, List.length_tail]
        simp only [List.length_append, List.length_cons, List.length_nil]
        omega
      have hmk : DFCache.set ⟨cap, store⟩ k v =
          ⟨cap, (store ++ [(k, v)]).tail⟩ := by
        rw [hset]
        simp only [if_pos hgt]
      have hfr2 : ∀ q ∈ rest,
          containsKey ((store ++ [(k, v)]).tail) q.1 = false := by
        intro q hq
        have h0 := hfresh' q hq
        rwa [hstore2] at h0
      have hle2 : ((store ++ [(k, v)]).tail).length ≤ cap := by
        rw [List.length_tail]
        simp only [List.length_append, List.length_cons, List.length_nil]
        omega
      rw [hrun, hmk, ih ((store ++ [(k, v)]).tail) hfr2 hnd' hle2]
      rw [List.length_tail]
      simp only [List.length_append, List.length_cons, List.length_nil]
      omega
    · have hmk : DFCache.set ⟨cap, store⟩ k v =
          ⟨cap, store ++ [(k, v)]⟩ := by
        rw [hset]
        simp only [if_neg hgt]
      have hfr2 : ∀ q ∈ rest,
          containsKey (store ++ [(k, v)]) q.1 = false := by
        intro q hq
        have h0 := hfresh' q hq
        rw [hmk] at h0
        exact h0
      have hle2 : (store ++ [(k, v)]).length ≤ cap := by
        simp only [List.length_append, List.length_cons, List.length_nil]
          at hgt ⊢
        omega
      rw [hrun, hmk, ih (store ++ [(k, v)]) hfr2 hnd' hle2]
      simp only [List.length_append, List.length_cons, List.length_nil]
      omega

/-- If a resident key is not at the least-recently-used position (the head),
a `set` of a different key cannot evict it. -/
theorem containsKey_set_of_not_head {α : Type} (c : DFCache α)
    (k k' : String) (v' : α) (hinv : c.store.length ≤ c.capacity)
    (hk : containsKey c.store k = true) (hne : k ≠ k')
    (hhead : c.store.head?.map Prod.fst ≠ some k) :
    containsKey (c.set k' v').store k = true := by
  unfold DFCache.set
  simp only
  by_cases hck : containsKey c.store k' = true
  · rw [if_pos hck]
    have h1 : (eraseKey c.store k' ++ [(k', v')]).length ≤ c.capacity := by
      have := length_eraseKey_lt_of_contains c.store k' hck
      simp only [List.length_append, List.length_cons, List.length_nil]
      omega
    rw [if_neg (by omega)]
    rw [containsKey_append, containsKey_eraseKey_ne c.store k' k hne, hk]
    simp
  · rw [if_neg hck]
    by_cases hgt : (c.store ++ [(k', v')]).length > c.capacity
    · rw [if_pos hgt]
      cases hs : c.store with
      | nil => rw [hs] at hk; simp [containsKey] at hk
      | cons e rest =>
        have hek : e.1 ≠ k := by
          intro hc
          apply hhead
          rw [hs]
          simp [hc]
        rw [hs] at hk
        simp only [containsKey, List.any_cons] at hk
        have hkrest : containsKey rest k = true := by
          rcases Bool.or_eq_true_iff.mp hk with h1 | h2
          · exact absurd (by simpa using h1) hek
          · simpa [containsKey] using h2
        simp only [List.cons_append, List.tail_cons]
        rw [containsKey_append, hkrest]
        simp
    · rw [if_neg hgt]
      rw [containsKey_append, hk]
      simp

/-- After a promotion that puts key `k` at the most-recently-used end,
inserting fewer than `capacity` fresh, pairwise-distinct keys (none equal
to `k`) leaves `k` resident: at each step the number of entries behind `k`
stays below the number of inserts done, so `k` never reaches the
least-recently-used position while an insert remains. -/
theorem survive_fresh_inserts {α : Type} (kvs : List (String × α))
    (cap : Nat) (B C : List (String × α)) (k : String) (v : α)
    (hnd : (kvs.map Prod.fst).Nodup)
    (hfresh : ∀ p ∈ kvs, containsKey (B ++ (k, v) :: C) p.1 = false)
    (hbound : C.length + kvs.length < cap) :
    containsKey
      (runOps ⟨cap, B ++ (k, v) :: C⟩ (setsOps kvs)).store k = true := by
  induction kvs generalizing B C with
  | nil =>
    simp only [runOps, setsOps, List.map_nil, List.foldl_nil]
    rw [containsKey_append]
    simp [containsKey]
  | cons p rest ih =>
    obtain ⟨k1, v1⟩ := p
    have hk1 : containsKey (B ++ (k, v) :: C) k1 = false :=
      hfresh (k1, v1) (by simp)
    have hrun : runOps (⟨cap, B ++ (k, v) :: C⟩ : DFCache α)
        (setsOps ((k1, v1) :: rest)) =
        runOps (DFCache.set ⟨cap, B ++ (k, v) :: C⟩ k1 v1) (setsOps rest) :=
      rfl
    have hset := set_store_fresh cap (B ++ (k, v) :: C) k1 v1 hk1
    have happ : (B ++ (k, v) :: C) ++ [(k1, v1)] =
        B ++ (k, v) :: (C ++ [(k1, v1)]) := by simp
    have hfreshT : ∀ q ∈ rest, ∀ (st : List (String × α)),
        containsKey (DFCache.set ⟨cap, B ++ (k, v) :: C⟩ k1 v1).store q.1 =
          containsKey st q.1 →
        containsKey st q.1 = false := by
      intro q hq st hst
      rw [← hst]
      cases h : containsKey (DFCache.set ⟨cap, B ++ (k, v) :: C⟩ k1 v1).store
          q.1 with
      | false => rfl
      | true =>
        exfalso
        rcases containsKey_set_fresh_sub cap (B ++ (k, v) :: C) k1 v1 q.1
            hk1 h with h1 | h2
        · have h0 := hfresh q (List.mem_cons_of_mem _ hq)
          rw [h0] at h1
          exact Bool.false_ne_true h1
        · have hknm : k1 ∉ rest.map Prod.fst :=
            (List.nodup_cons.mp (by simpa using hnd)).1
          exact hknm (h2 ▸ List.mem_map_of_mem Prod.fst hq)
    have hnd' : (rest.map Prod.fst).Nodup :=
      (List.nodup_cons.mp (by simpa using hnd)).2
    by_cases hgt : ((B ++ (k, v) :: C) ++ [(k1, v1)]).length > cap
    · -- eviction: B cannot be empty, else the store would fit
      have hBne : B ≠ [] := by
        intro hB0
        rw [hB0] at hgt
        simp only [List.nil_append, List.length_append, List.length_cons,
          List.length_nil] at hgt
        simp only [List.length_cons] at hbound
        omega
      obtain ⟨b, B', hB⟩ := List.exists_cons_of_ne_nil hBne
      have hmk : DFCache.set ⟨cap, B ++ (k, v) :: C⟩ k1 v1 =
          ⟨cap, B' ++ (k, v) :: (C ++ [(k1, v1)])⟩ := by
        rw [hset]
        simp only [if_pos hgt]
        congr 1
        rw [hB]
        simp
      have hfr2 : ∀ q ∈ rest,
          containsKey (B' ++ (k, v) :: (C ++ [(k1, v1)])) q.1 = false := by
        intro q hq
        apply hfreshT q hq
        rw [hmk]
      have hb2 : (C ++ [(k1, v1)]).length + rest.length < cap := by
        simp only [List.length_append, List.length_cons, List.length_nil]
          at hbound ⊢
        omega
      rw [hrun, hmk]
      exact ih B' (C ++ [(k1, v1)]) hnd' hfr2 hb2
    · have hmk : DFCache.set ⟨cap, B ++ (k, v) :: C⟩ k1 v1 =
          ⟨cap, B ++ (k, v) :: (C ++ [(k1, v1)])⟩ := by
        rw [hset]
        simp only [if_neg hgt]
        congr 1
      have hfr2 : ∀ q ∈ rest,
          containsKey (B ++ (k, v) :: (C ++ [(k1, v1)])) q.1 = false := by
        intro q hq
        apply hfreshT q hq
        rw [hmk]
      have hb2 : (C ++ [(k1, v1)]).length + rest.length < cap := by
        simp only [List.length_append, List.length_cons, List.length_nil]
          at hbound ⊢
        omega
      rw [hrun, hmk]
      exact ih B (C ++ [(k1, v1)]) hnd' hfr2 hb2

/-- C3: for every cache of capacity `C` and every sequence of get/set/clear
operations, the number of resident keys never exceeds `C`; a set of a new
distinct key on a full store appends it and evicts exactly the head — the
least-recently-accessed entry — leaving the count at `C`; and inserting
`C + 1` distinct keys from empty leaves exactly `C` resident. -/
theorem claim_C3 {α : Type} :
    (∀ (c : Int) (ops : List (CacheOp α)),
      (runOps (DFCache.init α c) ops).store.length ≤
        (DFCache.init α c).capacity) ∧
    (∀ (c : DFCache α) (k : String) (v : α),
      containsKey c.store k = false →
      c.store.length = c.capacity → 1 ≤ c.capacity →
      (c.set k v).store = c.store.tail ++ [(k, v)] ∧
        (c.set k v).store.length = c.capacity) ∧
    (∀ (c : Int) (kvs : List (String × α)),
      (kvs.map Prod.fst).Nodup →
      kvs.length = (DFCache.init α c).capacity + 1 →
      (runOps (DFCache.init α c) (setsOps kvs)).store.length =
        (DFCache.init α c).capacity) := by
  refine ⟨?_, ?_, ?_⟩
  · intro c ops
    have h0 : (DFCache.init α c).store.length ≤ (DFCache.init α c).capacity :=
      by simp [DFCache.init]
    have := length_runOps_le (DFCache.init α c) ops h0
    rwa [capacity_runOps] at this
  · intro c k v hfresh hfull hcap
    exact set_fresh_full c k v hfresh hfull hcap
  · intro c kvs hnd hlen
    have hfresh : ∀ p ∈ kvs,
        containsKey ((DFCache.init α c).store) p.1 = false := by
      intro p _
      rfl
    have h0 : (DFCache.init α c).store.length ≤ (DFCache.init α c).capacity :=
      by simp [DFCache.init]
    have hinit : DFCache.init α c =
        ⟨(DFCache.init α c).capacity, (DFCache.init α c).store⟩ := rfl
    rw [hinit]
    rw [length_runOps_fresh kvs (DFCache.init α c).capacity
      (DFCache.init α c).store hfresh hnd h0]
    have : (DFCache.init α c).store.length = 0 := rfl
    rw [this, hlen]
    show min (0 + ((DFCache.init α c).capacity + 1))
        ((DFCache.init α c).capacity) = (DFCache.init α c).capacity
    omega

/-- C3 witness: a concrete run at capacity 2 exercising every conjunct. -/
theorem claim_C3_witness :
    ((runOps (DFCache.init Nat 2)
        [CacheOp.set "a" 1, CacheOp.get "a", CacheOp.set "b" 2]).store.length ≤
      (DFCache.init Nat 2).capacity) ∧
    (((⟨2, [("a", 1), ("b", 2)]⟩ : DFCache Nat).set "c" 3).store =
        [("a", (1 : Nat)), ("b", 2)].tail ++ [("c", 3)] ∧
      ((⟨2, [("a", 1), ("b", 2)]⟩ : DFCache Nat).set "c" 3).store.length = 2) ∧
    ((runOps (DFCache.init Nat 2)
        (setsOps [("a", 1), ("b", 2), ("c", 3)])).store.length =
      (DFCache.init Nat 2).capacity) :=
  ⟨claim_C3.1 2 [CacheOp.set "a" 1, CacheOp.get "a", CacheOp.set "b" 2],
   claim_C3.2.1 ⟨2, [("a", 1), ("b", 2)]⟩ "c" 3 (by decide) (by decide)
     (by decide),
   claim_C3.2.2 2 [("a", 1), ("b", 2), ("c", 3)] (by decide) (by decide)⟩

/-- C4: a `get` hit returns the stored value and moves the entry to the
most-recently-used end; a `set` of a different key never evicts a resident
key that is not at the least-recently-used position; and after a hit on
`k`, inserting fewer than `capacity` fresh distinct keys (none equal to
`k`) leaves `k` resident — `k` cannot be evicted before it again becomes
the least-recently-used entry. -/
theorem claim_C4 {α : Type} :
    (∀ (c : DFCache α) (k : String) (v : α),
      lookupKey c.store k = some v →
      (c.get k).1 = some v ∧
        (c.get k).2.store = eraseKey c.store k ++ [(k, v)]) ∧
    (∀ (c : DFCache α) (k k' : String) (v' : α),
      c.store.length ≤ c.capacity →
      containsKey c.store k = true → k ≠ k' →
      c.store.head?.map Prod.fst ≠ some k →
      containsKey (c.set k' v').store k = true) ∧
    (∀ (c : DFCache α) (k : String) (v : α) (kvs : List (String × α)),
      lookupKey c.store k = some v →
      (kvs.map Prod.fst).Nodup →
      (∀ p ∈ kvs, containsKey c.store p.1 = false ∧ p.1 ≠ k) →
      kvs.length < c.capacity →
      containsKey (runOps (c.get k).2 (setsOps kvs)).store k = true) := by
  refine ⟨?_, ?_, ?_⟩
  · intro c k v h
    unfold DFCache.get
    rw [h]
    exact ⟨rfl, rfl⟩
  · intro c k k' v' hinv hk hne hhead
    exact containsKey_set_of_not_head c k k' v' hinv hk hne hhead
  · intro c k v kvs hhit hnd hfresh hlt
    have hget : (c.get k).2 = ⟨c.capacity, eraseKey c.store k ++ [(k, v)]⟩ :=
      by
      unfold DFCache.get
      rw [hhit]
    rw [hget]
    apply survive_fresh_inserts kvs c.capacity (eraseKey c.store k) [] k v
      hnd
    · intro p hp
      rw [containsKey_append]
      have h1 : containsKey (eraseKey c.store k) p.1 = false := by
        cases h : containsKey (eraseKey c.store k) p.1 with
        | false => rfl
        | true =>
          exfalso
          have := containsKey_of_eraseKey c.store k p.1 h
          rw [(hfresh p hp).1] at this
          exact Bool.false_ne_true this
      rw [h1]
      have h2 : containsKey [(k, v)] p.1 = false := by
        simp [containsKey]
        exact fun hc => (hfresh p hp).2 hc.symm
      rw [h2]
      rfl
    · simpa using hlt

/-- C4 witness: a concrete cache of capacity 2 holding `k`; a hit on `k`
promotes it, and one fresh insert does not evict it. -/
theorem claim_C4_witness :
    (((⟨2, [("k", 7), ("x", 5)]⟩ : DFCache Nat).get "k").1 = some 7 ∧
      ((⟨2, [("k", 7), ("x", 5)]⟩ : DFCache Nat).get "k").2.store =
        eraseKey [("k", (7 : Nat)), ("x", 5)] "k" ++ [("k", 7)]) ∧
    (containsKey
      ((⟨2, [("x", 5), ("k", 7)]⟩ : DFCache Nat).set "y" 9).store "k" =
        true) ∧
    (containsKey
      (runOps ((⟨2, [("k", 7), ("x", 5)]⟩ : DFCache Nat).get "k").2
        (setsOps [("y", 9)])).store "k" = true) :=
  ⟨claim_C4.1 ⟨2, [("k", 7), ("x", 5)]⟩ "k" 7 (by decide),
   claim_C4.2.1 ⟨2, [("x", 5), ("k", 7)]⟩ "k" "y" 9 (by decide) (by decide)
     (by decide) (by decide),
   claim_C4.2.2 ⟨2, [("k", 7), ("x", 5)]⟩ "k" 7 [("y", 9)] (by decide)
     (by decide) (by decide) (by decide)⟩

/-- C10: construction with any integer capacity argument succeeds with an
effective capacity of `max 1 c`, and even for `c ≤ 0` a `set` followed by a
`get` of the same key returns the stored value. -/
theorem claim_C10 {α : Type} : ∀ (c : Int),
    ((DFCache.init α c).capacity : Int) = max 1 c ∧
    ∀ (k : String) (v : α),
      (((DFCache.init α c).set k v).get k).1 = some v := by
  intro c
  have h1 : (1 : Int) ≤ max 1 c := le_max_left 1 c
  constructor
  · simp only [DFCache.init]
    omega
  · intro k v
    have hcap : 1 ≤ (max 1 c).toNat := by omega
    have hk0 : containsKey ([] : List (String × α)) k = false := rfl
    have hset : (DFCache.init α c).set k v =
        ⟨(max 1 c).toNat, [(k, v)]⟩ := by
      rw [show DFCache.init α c = ⟨(max 1 c).toNat, []⟩ from rfl]
      rw [set_store_fresh (max 1 c).toNat [] k v hk0]
      simp only [List.nil_append, List.length_cons, List.length_nil]
      rw [if_neg (by omega)]
    rw [hset]
    unfold DFCache.get
    simp [lookupKey]

/-! ## `DFCache.make_key` — the cache fingerprint

`make_key` feeds `hashlib.sha1` the UTF-8 bytes of `view_id or ""`, a NUL
separator byte, the bytes of `sql or ""`, a NUL separator byte, and the
bytes of `repr(tuple(binds or ()))`, then returns the digest.  We model the
*byte stream fed to the digest* as a `List Char` (UTF-8 encoding is
injective and uniquely decodable, so two streams are equal iff the
character sequences are equal); SHA-1 itself is not modelled — the claims
about key distinctness are claims about the digest input, "up to digest
collision".

Bind values reaching `make_key` are the runtime parameter values: Python
`None`, `int` or `str`.  Python's `repr` is modelled faithfully for these:
ints in decimal, strings quoted (double quotes when the string contains a
single quote but no double quote, else single quotes) with `\\`-escapes for
the backslash, the quote character, newline, carriage return and tab, and
`\xhh` escapes for the remaining control characters (code < 32 or 127);
printable characters, including non-ASCII ones, are kept literal. -/

/-- A bind value as it reaches `make_key` (`None`, `int` or `str`). -/
inductive Bind where
  | bnone
  | bint (n : Int)
  | bstr (s : String)
  deriving DecidableEq

/-- Lower-case hexadecimal digit (value below ten maps into `0`–`9`, ten
to fifteen into `a`–`f`), as used by Python `\xhh` escapes. -/
def hexDigit (n : Nat) : Char :=
  if n < 10 then Char.ofNat (48 + n) else Char.ofNat (87 + n)

/-- Value of a lower-case hexadecimal digit character, if it is one. -/
def hexVal (c : Char) : Option Nat :=
  if 48 ≤ c.toNat ∧ c.toNat ≤ 57 then some (c.toNat - 48)
  else if 97 ≤ c.toNat ∧ c.toNat ≤ 102 then some (c.toNat - 87)
  else Option.none

/-- How Python `repr` renders one character of a string quoted with `q`. -/
def escapeChar (q : Char) (c : Char) : List Char :=
  if c = '\\' ∨ c = q then ['\\', c]
  else if c = '\n' then ['\\', 'n']
  else if c = '\r' then ['\\', 'r']
  else if c = '\t' then ['\\', 't']
  else if c.toNat < 32 ∨ c.toNat = 127 then
    ['\\', 'x', hexDigit (c.toNat / 16), hexDigit (c.toNat % 16)]
  else [c]

/-- Python `repr` quote selection: a double quote when the string contains
a single quote but no double quote, else a single quote. -/
def chooseQuote (s : List Char) : Char :=
  if '\'' ∈ s ∧ ¬ '"' ∈ s then '"' else '\''

/-- Python `repr` of a string, over character lists. -/
def reprStrChars (s : List Char) : List Char :=
  chooseQuote s :: s.flatMap (escapeChar (chooseQuote s)) ++ [chooseQuote s]

/-- Decimal digits of a natural number (most significant first). -/
def natToChars (n : Nat) : List Char :=
  if _h : n < 10 then [hexDigit n]
  else natToChars (n / 10) ++ [hexDigit (n % 10)]
  termination_by n
  decreasing_by exact Nat.div_lt_self (by omega) (by omega)

/-- Python `repr` of an `int`: decimal, with a leading minus sign when
negative. -/
def reprInt (n : Int) : List Char :=
  if n < 0 then '-' :: natToChars (-n).toNat else natToChars n.toNat

/-- Python `repr` of one bind value. -/
def reprBind : Bind → List Char
  | Bind.bnone => ['N', 'o', 'n', 'e']
  | Bind.bint n => reprInt n
  | Bind.bstr s => reprStrChars s.toList

/-- The tail of a tuple `repr` after its first element: each further
element is preceded by `, `, and the tuple ends with `)`.  (Together with
`reprTuple` this produces exactly `"(" + ", ".join(map(repr, t)) + ")"`,
with Python's trailing comma for one-element tuples.) -/
def reprTupleTail : List Bind → List Char
  | [] => [')']
  | b :: bs => ',' :: ' ' :: (reprBind b ++ reprTupleTail bs)

/-- Python `repr(tuple(binds))`: `()` when empty, `(x,)` for one element,
`(x, y, …)` otherwise. -/
def reprTuple : List Bind → List Char
  | [] => ['(', ')']
  | [b] => '(' :: (reprBind b ++ [',', ')'])
  | b :: bs => '(' :: (reprBind b ++ reprTupleTail bs)

/-- The `binds` argument of `make_key` as passed by Python callers: absent
(`None`), a list, or a tuple.  `make_key` normalizes all of them through
`tuple(binds or ())`. -/
inductive PySeq where
  | pnone
  | plist (l : List Bind)
  | ptuple (l : List Bind)

/-- `tuple(binds or ())`: `None` (and the empty list/tuple, via falsiness)
become the empty tuple; otherwise the elements in order. -/
def seqToList : PySeq → List Bind
  | PySeq.pnone => []
  | PySeq.plist l => l
  | PySeq.ptuple l => l

/-- The character stream underlying the byte stream that `make_key` feeds
to the SHA-1 digest: `(view_id or "")`, a NUL separator, `(sql or "")`, a
NUL separator, then `repr(tuple(binds or ()))`. -/
def makeKeyInput (viewId : Option String) (sql : Option String)
    (binds : PySeq) : List Char :=
  (viewId.getD "").toList ++ ['\x00'] ++ (sql.getD "").toList ++ ['\x00'] ++
    reprTuple (seqToList binds)

/-! To prove that `reprTuple` (and hence the digest input) separates
different bind lists, we build a decoder and show it inverts the encoder:
`repr` output is uniquely decodable. -/

/-- Prepend a character to the string part of a parse result. -/
def consFst (c : Char) :
    Option (List Char × List Char) → Option (List Char × List Char)
  | some (s, r) => some (c :: s, r)
  | Option.none => Option.none

/-- Decoder for the body of a quoted `repr` string: consumes characters up
to and including the closing quote `q`, undoing the escapes. -/
def parseStrBody (q : Char) : List Char → Option (List Char × List Char)
  | [] => Option.none
  | c :: rest =>
    if c = q then some ([], rest)
    else if c = '\\' then
      match rest with
      | [] => Option.none
      | 'n' :: rest2 => consFst '\n' (parseStrBody q rest2)
      | 'r' :: rest2 => consFst '\r' (parseStrBody q rest2)
      | 't' :: rest2 => consFst '\t' (parseStrBody q rest2)
      | 'x' :: rest2 =>
        match rest2 with
        | h1 :: h2 :: rest3 =>
          match hexVal h1, hexVal h2 with
          | some a, some b =>
            consFst (Char.ofNat (a * 16 + b)) (parseStrBody q rest3)
          | _, _ => Option.none
        | _ => Option.none
      | e :: rest2 => consFst e (parseStrBody q rest2)
    else consFst c (parseStrBody q rest)

/-- Greedy decimal reader: consumes the leading digits, accumulating their
value onto `acc`. -/
def readDigits (acc : Nat) : List Char → Nat × List Char
  | [] => (acc, [])
  | c :: rest =>
    if c.isDigit then readDigits (acc * 10 + (c.toNat - 48)) rest
    else (acc, c :: rest)

/-- Decoder for the `repr` of one bind value.  After an integer the caller
must be looking at a non-digit (inside a tuple: `,` or `)`). -/
def parseBind : List Char → Option (Bind × List Char)
  | [] => Option.none
  | c :: rest =>
    if c = 'N' then
      match rest with
      | 'o' :: 'n' :: 'e' :: r => some (Bind.bnone, r)
      | _ => Option.none
    else if c = '\'' ∨ c = '"' then
      match parseStrBody c rest with
      | some (s, r) => some (Bind.bstr (String.mk s), r)
      | Option.none => Option.none
    else if c = '-' then
      match rest with
      | d :: _ =>
        if d.isDigit then
          let p := readDigits 0 rest
          some (Bind.bint (-(p.1 : Int)), p.2)
        else Option.none
      | [] => Option.none
    else if c.isDigit then
      let p := readDigits 0 (c :: rest)
      some (Bind.bint (p.1 : Int), p.2)
    else Option.none

/-- Decoder for the elements of a nonempty tuple `repr`, fuelled by an
upper bound on the number of elements. -/
def parseElems : Nat → List Char → Option (List Bind × List Char)
  | 0, _ => Option.none
  | fuel + 1, l =>
    match parseBind l with
    | Option.none => Option.none
    | some (b, r) =>
      match r with
      | ')' :: r2 => some ([b], r2)
      | ',' :: ')' :: r2 => some ([b], r2)
      | ',' :: ' ' :: r2 =>
        match parseElems fuel r2 with
        | some (bs, r3) => some (b :: bs, r3)
        | Option.none => Option.none
      | _ => Option.none

/-- Decoder for a tuple `repr`. -/
def parseTuple : List Char → Option (List Bind × List Char)
  | '(' :: r =>
    match r with
    | ')' :: r2 => some ([], r2)
    | _ => parseElems (r.length + 1) r
  | _ => Option.none

theorem hexVal_hexDigit (k : Nat) (h : k < 16) : hexVal (hexDigit k) = some k := by
  interval_cases k <;> rfl

theorem chooseQuote_cases (s : List Char) :
    chooseQuote s = '\'' ∨ chooseQuote s = '"' := by
  unfold chooseQuote
  by_cases h : '\'' ∈ s ∧ ¬ '"' ∈ s
  · rw [if_pos h]; right; rfl
  · rw [if_neg h]; left; rfl

/-- The decoder `parseStrBody` inverts the escape encoding: reading the
escaped body followed by the closing quote recovers the original
characters and leaves the remainder untouched. -/
theorem parseStrBody_roundtrip (q : Char) (hq : q = '\'' ∨ q = '"')
    (s rest : List Char) :
    parseStrBody q (s.flatMap (escapeChar q) ++ (q :: rest)) =
      some (s, rest) := by
  induction s with
  | nil =>
    simp only [List.flatMap_nil, List.nil_append]
    rw [parseStrBody.eq_def]
    simp
  | cons c s' ih =>
    rw [List.flatMap_cons, List.append_assoc]
    by_cases hA : c = '\\' ∨ c = q
    · have henc : escapeChar q c = ['\\', c] := by
        unfold escapeChar
        rw [if_pos hA]
      rw [henc]
      have hstep : parseStrBody q
          ('\\' :: c :: (s'.flatMap (escapeChar q) ++ (q :: rest))) =
          consFst c (parseStrBody q
            (s'.flatMap (escapeChar q) ++ (q :: rest))) := by
        rcases hq with h | h <;> subst h <;> rcases hA with h | h <;>
          subst h <;> rfl
      simp only [List.cons_append, List.nil_append]
      rw [hstep, ih]
      rfl
    · push_neg at hA
      obtain ⟨hbs, hqc⟩ := hA
      by_cases hN : c = '\n'
      · subst hN
        have henc : escapeChar q '\n' = ['\\', 'n'] := by
          unfold escapeChar
          rw [if_neg (by push_neg; exact ⟨hbs, hqc⟩), if_pos rfl]
        rw [henc]
        have hstep : parseStrBody q
            ('\\' :: 'n' :: (s'.flatMap (escapeChar q) ++ (q :: rest))) =
            consFst '\n' (parseStrBody q
              (s'.flatMap (escapeChar q) ++ (q :: rest))) := by
          rcases hq with h | h <;> subst h <;> rfl
        simp only [List.cons_append, List.nil_append]
        rw [hstep, ih]
        rfl
      · by_cases hR : c = '\r'
        · subst hR
          have henc : escapeChar q '\r' = ['\\', 'r'] := by
            unfold escapeChar
            rw [if_neg (by push_neg; exact ⟨hbs, hqc⟩), if_neg (by decide),
              if_pos rfl]
          rw [henc]
          have hstep : parseStrBody q
              ('\\' :: 'r' :: (s'.flatMap (escapeChar q) ++ (q :: rest))) =
              consFst '\r' (parseStrBody q
                (s'.flatMap (escapeChar q) ++ (q :: rest))) := by
            rcases hq with h | h <;> subst h <;> rfl
          simp only [List.cons_append, List.nil_append]
          rw [hstep, ih]
          rfl
        · by_cases hT : c = '\t'
          · subst hT
            have henc : escapeChar q '\t' = ['\\', 't'] := by
              unfold escapeChar
              rw [if_neg (by push_neg; exact ⟨hbs, hqc⟩),
                if_neg (by decide), if_neg (by decide), if_pos rfl]
            rw [henc]
            have hstep : parseStrBody q
                ('\\' :: 't' :: (s'.flatMap (escapeChar q) ++
                  (q :: rest))) =
                consFst '\t' (parseStrBody q
                  (s'.flatMap (escapeChar q) ++ (q :: rest))) := by
              rcases hq with h | h <;> subst h <;> rfl
            simp only [List.cons_append, List.nil_append]
            rw [hstep, ih]
            rfl
          · by_cases hX : c.toNat < 32 ∨ c.toNat = 127
            · have henc : escapeChar q c =
                  ['\\', 'x', hexDigit (c.toNat / 16),
                    hexDigit (c.toNat % 16)] := by
                unfold escapeChar
                rw [if_neg (by push_neg; exact ⟨hbs, hqc⟩),
                  if_neg hN, if_neg hR, if_neg hT, if_pos hX]
              rw [henc]
              have hstep : ∀ (a b : Char) (t : List Char),
                  parseStrBody q ('\\' :: 'x' :: a :: b :: t) =
                    (match hexVal a, hexVal b with
                    | some x, some y =>
                      consFst (Char.ofNat (x * 16 + y)) (parseStrBody q t)
                    | _, _ => Option.none) := by
                rcases hq with h | h <;> subst h <;> intro a b t <;> rfl
              simp only [List.cons_append, List.nil_append]
              rw [hstep]
              have hdiv : c.toNat / 16 < 16 := by
                rcases hX with h | h <;> omega
              have hmod : c.toNat % 16 < 16 := Nat.mod_lt _ (by omega)
              rw [hexVal_hexDigit _ hdiv, hexVal_hexDigit _ hmod]
              show consFst (Char.ofNat (c.toNat / 16 * 16 + c.toNat % 16))
                  (parseStrBody q (s'.flatMap (escapeChar q) ++ q :: rest)) =
                some (c :: s', rest)
              have harith : c.toNat / 16 * 16 + c.toNat % 16 = c.toNat := by
                omega
              rw [harith, Char.ofNat_toNat, ih]
              rfl
            · have henc : escapeChar q c = [c] := by
                unfold escapeChar
                rw [if_neg (by push_neg; exact ⟨hbs, hqc⟩),
                  if_neg hN, if_neg hR, if_neg hT, if_neg hX]
              rw [henc]
              simp only [List.cons_append, List.nil_append]
              rw [parseStrBody.eq_def]
              simp only [hqc, hbs, if_false, ite_false]
              rw [ih]
              rfl

theorem hexDigit_isDigit (n : Nat) (h : n < 10) :
    (hexDigit n).isDigit = true := by
  interval_cases n <;> rfl

theorem hexDigit_toNat (n : Nat) (h : n < 10) :
    (hexDigit n).toNat - 48 = n := by
  interval_cases n <;> rfl

theorem natToChars_head : ∀ (n : Nat), ∃ (d : Char) (t : List Char),
    natToChars n = d :: t ∧ d.isDigit = true := by
  intro n
  induction n using Nat.strong_induction_on with
  | _ n ih =>
    by_cases h : n < 10
    · refine ⟨hexDigit n, [], ?_, hexDigit_isDigit n h⟩
      rw [natToChars.eq_def, dif_pos h]
    · obtain ⟨d, t, hdt, hd⟩ := ih (n / 10) (Nat.div_lt_self (by omega) (by omega))
      refine ⟨d, t ++ [hexDigit (n % 10)], ?_, hd⟩
      rw [natToChars.eq_def, dif_neg h, hdt]
      rfl

theorem readDigits_cons (acc : Nat) (c : Char) (l : List Char) :
    readDigits acc (c :: l) =
      if c.isDigit = true then readDigits (acc * 10 + (c.toNat - 48)) l
      else (acc, c :: l) := rfl

theorem readDigits_natToChars : ∀ (n acc : Nat) (rest : List Char),
    readDigits acc (natToChars n ++ rest) =
      readDigits (acc * 10 ^ (natToChars n).length + n) rest := by
  intro n
  induction n using Nat.strong_induction_on with
  | _ n ih =>
    intro acc rest
    by_cases h : n < 10
    · rw [natToChars.eq_def, dif_pos h]
      simp only [List.cons_append, List.nil_append, List.length_cons,
        List.length_nil]
      rw [readDigits_cons]
      rw [if_pos (hexDigit_isDigit n h), hexDigit_toNat n h]
      simp [pow_succ]
    · rw [natToChars.eq_def, dif_neg h]
      simp only [List.append_assoc, List.cons_append, List.nil_append]
      rw [ih (n / 10) (Nat.div_lt_self (by omega) (by omega))]
      rw [readDigits_cons]
      rw [if_pos (hexDigit_isDigit (n % 10) (by omega)),
        hexDigit_toNat (n % 10) (by omega)]
      simp only [List.length_append, List.length_cons, List.length_nil]
      have harith :
          (acc * 10 ^ (natToChars (n / 10)).length + n / 10) * 10 + n % 10 =
          acc * 10 ^ ((natToChars (n / 10)).length + 1) + n := by
        rw [pow_succ]
        have h1 : (acc * 10 ^ (natToChars (n / 10)).length + n / 10) * 10 +
            n % 10 = acc * (10 ^ (natToChars (n / 10)).length * 10) +
            (n / 10 * 10 + n % 10) := by ring
        rw [h1]
        omega
      rw [harith]

theorem readDigits_stop (acc : Nat) (l : List Char)
    (h : ∀ c ∈ l.head?, c.isDigit = false) : readDigits acc l = (acc, l) := by
  cases l with
  | nil => rfl
  | cons c rest =>
    have hc : c.isDigit = false := h c rfl
    rw [readDigits.eq_def]
    simp [hc]

/-- A digit character is none of the delimiters and markers used by the
bind decoder. -/
theorem digit_ne (c : Char) (h : c.isDigit = true) :
    c ≠ 'N' ∧ c ≠ '\'' ∧ c ≠ '"' ∧ c ≠ '-' ∧ c ≠ ')' ∧ c ≠ ',' := by
  refine ⟨?_, ?_, ?_, ?_, ?_, ?_⟩ <;>
    (intro hc; subst hc; exact absurd h (by decide))

/-- The decoder `parseBind` inverts `reprBind`, provided the remainder does
not begin with a digit (inside a tuple it begins with `,` or `)`). -/
theorem parseBind_roundtrip (b : Bind) (rest : List Char)
    (hrest : ∀ c ∈ rest.head?, c.isDigit = false) :
    parseBind (reprBind b ++ rest) = some (b, rest) := by
  cases b with
  | bnone => rfl
  | bint n =>
    by_cases hn : n < 0
    · have henc : reprBind (Bind.bint n) = '-' :: natToChars (-n).toNat := by
        simp [reprBind, reprInt, hn]
      rw [henc]
      obtain ⟨d, t, hdt, hd⟩ := natToChars_head (-n).toNat
      simp only [List.cons_append]
      rw [parseBind.eq_def]
      simp only [if_neg (by decide : ¬('-' : Char) = 'N'),
        if_neg (by decide : ¬(('-' : Char) = '\'' ∨ ('-' : Char) = '"')),
        if_pos (rfl : ('-' : Char) = '-')]
      rw [hdt]
      simp only [List.cons_append]
      rw [if_pos hd]
      have hrd : readDigits 0 (d :: (t ++ rest)) = ((-n).toNat, rest) := by
        rw [← List.cons_append, ← hdt, readDigits_natToChars,
          readDigits_stop _ _ hrest]
        simp
      rw [hrd]
      have hcast : (((-n).toNat : Int)) = -n := Int.toNat_of_nonneg (by omega)
      show some (Bind.bint (-(((-n).toNat : Int))), rest) =
        some (Bind.bint n, rest)
      rw [hcast]
      simp
    · have henc : reprBind (Bind.bint n) = natToChars n.toNat := by
        simp [reprBind, reprInt, hn]
      rw [henc]
      obtain ⟨d, t, hdt, hd⟩ := natToChars_head n.toNat
      obtain ⟨hN, hq1, hq2, hm, _, _⟩ := digit_ne d hd
      rw [hdt]
      simp only [List.cons_append]
      rw [parseBind.eq_def]
      simp only [if_neg hN,
        if_neg (show ¬(d = '\'' ∨ d = '"') from fun hor => hor.elim hq1 hq2),
        if_neg hm, if_pos hd]
      have hrd : readDigits 0 (d :: (t ++ rest)) = (n.toNat, rest) := by
        rw [← List.cons_append, ← hdt, readDigits_natToChars,
          readDigits_stop _ _ hrest]
        simp
      rw [hrd]
      have hcast : ((n.toNat : Int)) = n := Int.toNat_of_nonneg (by omega)
      show some (Bind.bint ((n.toNat : Int)), rest) = some (Bind.bint n, rest)
      rw [hcast]
  | bstr s =>
    show parseBind
        ((chooseQuote s.toList ::
          (s.toList.flatMap (escapeChar (chooseQuote s.toList)) ++
            [chooseQuote s.toList])) ++ rest) = some (Bind.bstr s, rest)
    rcases chooseQuote_cases s.toList with hq' | hq'
    · rw [hq']
      simp only [List.cons_append, List.append_assoc, List.nil_append]
      have hstep : ∀ X, parseBind ('\'' :: X) =
          (match parseStrBody '\'' X with
          | some (sc, r) => some (Bind.bstr (String.mk sc), r)
          | Option.none => Option.none) := fun X => rfl
      rw [hstep, parseStrBody_roundtrip '\'' (Or.inl rfl) s.toList rest]
      rfl
    · rw [hq']
      simp only [List.cons_append, List.append_assoc, List.nil_append]
      have hstep : ∀ X, parseBind ('"' :: X) =
          (match parseStrBody '"' X with
          | some (sc, r) => some (Bind.bstr (String.mk sc), r)
          | Option.none => Option.none) := fun X => rfl
      rw [hstep, parseStrBody_roundtrip '"' (Or.inr rfl) s.toList rest]
      rfl

theorem head_not_digit_cons (c0 : Char) (h : c0.isDigit = false)
    (r : List Char) : ∀ c ∈ ((c0 :: r) : List Char).head?, c.isDigit = false := by
  intro c hc
  simp only [List.head?_cons, Option.mem_def, Option.some.injEq] at hc
  rw [← hc]
  exact h

theorem reprTupleTail_length (bs : List Bind) :
    bs.length ≤ (reprTupleTail bs).length := by
  induction bs with
  | nil => simp [reprTupleTail]
  | cons b bs2 ih =>
    simp only [reprTupleTail, List.length_cons, List.length_append]
    omega

/-- `reprBind` output is nonempty and never starts with `)`. -/
theorem reprBind_head (b : Bind) : ∃ (c : Char) (t : List Char),
    reprBind b = c :: t ∧ c ≠ ')' := by
  cases b with
  | bnone => exact ⟨'N', ['o', 'n', 'e'], rfl, by decide⟩
  | bint n =>
    by_cases hn : n < 0
    · refine ⟨'-', natToChars (-n).toNat, ?_, by decide⟩
      simp [reprBind, reprInt, hn]
    · obtain ⟨d, t, hdt, hd⟩ := natToChars_head n.toNat
      refine ⟨d, t, ?_, (digit_ne d hd).2.2.2.2.1⟩
      simp [reprBind, reprInt, hn, hdt]
  | bstr s =>
    refine ⟨chooseQuote s.toList,
      s.toList.flatMap (escapeChar (chooseQuote s.toList)) ++
        [chooseQuote s.toList], rfl, ?_⟩
    rcases chooseQuote_cases s.toList with h | h <;> rw [h] <;> decide

theorem parseElems_succ (f : Nat) (l : List Char) :
    parseElems (f + 1) l =
      match parseBind l with
      | Option.none => Option.none
      | some (b, r) =>
        match r with
        | ')' :: r2 => some ([b], r2)
        | ',' :: ')' :: r2 => some ([b], r2)
        | ',' :: ' ' :: r2 =>
          match parseElems f r2 with
          | some (bs, r3) => some (b :: bs, r3)
          | Option.none => Option.none
        | _ => Option.none := rfl

theorem parseElems_single (b : Bind) (rest : List Char) (f : Nat) :
    parseElems (f + 1) (reprBind b ++ (',' :: ')' :: rest)) =
      some ([b], rest) := by
  have hpb := parseBind_roundtrip b (',' :: ')' :: rest)
    (head_not_digit_cons ',' rfl _)
  rw [parseElems_succ, hpb]
  rfl

theorem parseElems_chain : ∀ (bs : List Bind) (b : Bind) (rest : List Char)
    (fuel : Nat), bs.length < fuel →
    parseElems fuel (reprBind b ++ (reprTupleTail bs ++ rest)) =
      some (b :: bs, rest) := by
  intro bs
  induction bs with
  | nil =>
    intro b rest fuel hfuel
    cases fuel with
    | zero => omega
    | succ f =>
      have hpb := parseBind_roundtrip b (')' :: rest)
        (head_not_digit_cons ')' rfl _)
      show parseElems (f + 1) (reprBind b ++ (')' :: rest)) =
        some ([b], rest)
      rw [parseElems_succ, hpb]
      rfl
  | cons b2 bs2 ih =>
    intro b rest fuel hfuel
    cases fuel with
    | zero => simp at hfuel
    | succ f =>
      have hpb := parseBind_roundtrip b
        (',' :: ' ' :: (reprBind b2 ++ (reprTupleTail bs2 ++ rest)))
        (head_not_digit_cons ',' rfl _)
      show parseElems (f + 1) (reprBind b ++
        (',' :: ' ' :: (reprBind b2 ++ reprTupleTail bs2) ++ rest)) =
        some (b :: b2 :: bs2, rest)
      simp only [List.cons_append, List.append_assoc]
      rw [parseElems_succ, hpb]
      show (match parseElems f (reprBind b2 ++ (reprTupleTail bs2 ++ rest))
          with
        | some (bs, r3) => some (b :: bs, r3)
        | Option.none => Option.none) = some (b :: b2 :: bs2, rest)
      rw [ih b2 rest f (by simp at hfuel ⊢; omega)]

theorem parseTuple_paren (l : List Char) :
    parseTuple ('(' :: l) =
      match l with
      | ')' :: r2 => some ([], r2)
      | _ => parseElems (l.length + 1) l := rfl

/-- The tuple decoder inverts `reprTuple`, leaving any remainder intact:
`repr` of a bind tuple is uniquely decodable. -/
theorem parseTuple_roundtrip (bs : List Bind) (rest : List Char) :
    parseTuple (reprTuple bs ++ rest) = some (bs, rest) := by
  cases bs with
  | nil => rfl
  | cons b bs2 =>
    obtain ⟨c, t, hct, hcne⟩ := reprBind_head b
    cases bs2 with
    | nil =>
      show parseTuple ('(' :: ((reprBind b ++ [',', ')']) ++ rest)) =
        some ([b], rest)
      have hL : (reprBind b ++ [',', ')']) ++ rest =
          c :: (t ++ (',' :: ')' :: rest)) := by
        rw [hct]
        simp
      rw [hL, parseTuple_paren]
      split
      · rename_i heq
        exfalso
        rw [List.cons.injEq] at heq
        exact hcne heq.1
      · have hback : c :: (t ++ (',' :: ')' :: rest)) =
            reprBind b ++ (',' :: ')' :: rest) := by
          rw [hct]
          simp
        rw [hback]
        exact parseElems_single b rest _
    | cons b3 bs3 =>
      show parseTuple
        ('(' :: ((reprBind b ++ reprTupleTail (b3 :: bs3)) ++ rest)) =
        some (b :: b3 :: bs3, rest)
      have hL : (reprBind b ++ reprTupleTail (b3 :: bs3)) ++ rest =
          c :: (t ++ (reprTupleTail (b3 :: bs3) ++ rest)) := by
        rw [hct]
        simp
      rw [hL, parseTuple_paren]
      split
      · rename_i heq
        exfalso
        rw [List.cons.injEq] at heq
        exact hcne heq.1
      · have hback : c :: (t ++ (reprTupleTail (b3 :: bs3) ++ rest)) =
            reprBind b ++ (reprTupleTail (b3 :: bs3) ++ rest) := by
          rw [hct]
          simp
        rw [hback]
        apply parseElems_chain (b3 :: bs3) b rest
        have h1 := reprTupleTail_length (b3 :: bs3)
        simp only [List.length_cons, List.length_append] at *
        omega

/-- `repr(tuple(…))` separates bind lists: different lists (including a
mere reordering) have different representations. -/
theorem reprTuple_inj (b1 b2 : List Bind) (h : reprTuple b1 = reprTuple b2) :
    b1 = b2 := by
  have h1 := parseTuple_roundtrip b1 []
  have h2 := parseTuple_roundtrip b2 []
  rw [h] at h1
  rw [h1] at h2
  simpa using h2

theorem string_toList_inj (s t : String) (h : s.toList = t.toList) : s = t :=
  congrArg String.mk h

/-- C5: the fingerprint is a pure function of `(viewId, sql, binds)`, and
any change to exactly one component — the view id, the SQL text, or the
bind list (including its order) — changes the character stream fed to the
digest, hence the key up to digest collision. -/
theorem claim_C5 :
    (∀ (v s v' s' : String) (b b' : List Bind),
      v = v' → s = s' → b = b' →
      makeKeyInput (some v) (some s) (PySeq.ptuple b) =
        makeKeyInput (some v') (some s') (PySeq.ptuple b')) ∧
    (∀ (v1 v2 s : String) (b : List Bind), v1 ≠ v2 →
      makeKeyInput (some v1) (some s) (PySeq.ptuple b) ≠
        makeKeyInput (some v2) (some s) (PySeq.ptuple b)) ∧
    (∀ (v s1 s2 : String) (b : List Bind), s1 ≠ s2 →
      makeKeyInput (some v) (some s1) (PySeq.ptuple b) ≠
        makeKeyInput (some v) (some s2) (PySeq.ptuple b)) ∧
    (∀ (v s : String) (b1 b2 : List Bind), b1 ≠ b2 →
      makeKeyInput (some v) (some s) (PySeq.ptuple b1) ≠
        makeKeyInput (some v) (some s) (PySeq.ptuple b2)) := by
  refine ⟨?_, ?_, ?_, ?_⟩
  · intro v s v' s' b b' hv hs hb
    rw [hv, hs, hb]
  · intro v1 v2 s b hne heq
    apply hne
    unfold makeKeyInput at heq
    simp only [Option.getD_some, seqToList, List.append_assoc] at heq
    exact string_toList_inj _ _ (List.append_cancel_right heq)
  · intro v s1 s2 b hne heq
    apply hne
    unfold makeKeyInput at heq
    simp only [Option.getD_some, seqToList, List.append_assoc] at heq
    have h1 := List.append_cancel_left heq
    have h2 := List.append_cancel_left h1
    exact string_toList_inj _ _ (List.append_cancel_right h2)
  · intro v s b1 b2 hne heq
    apply hne
    unfold makeKeyInput at heq
    simp only [Option.getD_some, seqToList, List.append_assoc] at heq
    have h1 := List.append_cancel_left heq
    have h2 := List.append_cancel_left h1
    have h3 := List.append_cancel_left h2
    have h4 := List.append_cancel_left h3
    exact reprTuple_inj b1 b2 h4

/-- C5 witness: concrete triples differing in one component have different
digest inputs (including a reordering of the binds). -/
theorem claim_C5_witness :
    (makeKeyInput (some "v") (some "SELECT 1") (PySeq.ptuple [Bind.bint 1]) =
      makeKeyInput (some "v") (some "SELECT 1")
        (PySeq.ptuple [Bind.bint 1])) ∧
    (("v1" : String) ≠ "v2" ∧
      makeKeyInput (some "v1") (some "SELECT 1")
          (PySeq.ptuple [Bind.bint 1]) ≠
        makeKeyInput (some "v2") (some "SELECT 1")
          (PySeq.ptuple [Bind.bint 1])) ∧
    (("SELECT 1" : String) ≠ "SELECT 2" ∧
      makeKeyInput (some "v") (some "SELECT 1")
          (PySeq.ptuple [Bind.bint 1]) ≠
        makeKeyInput (some "v") (some "SELECT 2")
          (PySeq.ptuple [Bind.bint 1])) ∧
    (([Bind.bint 1, Bind.bint 2] : List Bind) ≠ [Bind.bint 2, Bind.bint 1] ∧
      makeKeyInput (some "v") (some "SELECT 1")
          (PySeq.ptuple [Bind.bint 1, Bind.bint 2]) ≠
        makeKeyInput (some "v") (some "SELECT 1")
          (PySeq.ptuple [Bind.bint 2, Bind.bint 1])) :=
  ⟨claim_C5.1 "v" "SELECT 1" "v" "SELECT 1" [Bind.bint 1] [Bind.bint 1]
      rfl rfl rfl,
   ⟨by decide, claim_C5.2.1 "v1" "v2" "SELECT 1" [Bind.bint 1] (by decide)⟩,
   ⟨by decide, claim_C5.2.2.1 "v" "SELECT 1" "SELECT 2" [Bind.bint 1]
      (by decide)⟩,
   ⟨by decide, claim_C5.2.2.2 "v" "SELECT 1" [Bind.bint 1, Bind.bint 2]
      [Bind.bint 2, Bind.bint 1] (by decide)⟩⟩

/-- C9: `make_key` normalizes absent arguments — `None` view id, `None`
SQL and `None` binds are interchangeable with `""`, `""` and the empty
tuple respectively, and a list of binds keys identically to the tuple of
the same values in the same order. -/
theorem claim_C9 :
    (∀ (sql : Option String) (binds : PySeq),
      makeKeyInput Option.none sql binds =
        makeKeyInput (some "") sql binds) ∧
    (∀ (vid : Option String) (binds : PySeq),
      makeKeyInput vid Option.none binds =
        makeKeyInput vid (some "") binds) ∧
    (∀ (vid sql : Option String),
      makeKeyInput vid sql PySeq.pnone =
        makeKeyInput vid sql (PySeq.ptuple [])) ∧
    (∀ (vid sql : Option String) (l : List Bind),
      makeKeyInput vid sql (PySeq.plist l) =
        makeKeyInput vid sql (PySeq.ptuple l)) :=
  ⟨fun _ _ => rfl, fun _ _ => rfl, fun _ _ => rfl, fun _ _ _ => rfl⟩

/-! ## core/sqlbuilder.py — `SQLBuilder`

Views, filters and runtime parameters are JSON-like Python dicts.  Dicts
with a fixed key set (views, filters, select items, …) become structures;
the runtime parameter dict and the per-parameter default mapping become
association lists.  JSON-like runtime *values* (parameter values, filter
defaults, bind values) are modelled by `PyVal`; `PyVal.none` is Python
`None`. -/

/-- A JSON-like runtime value: `None`, `int`, `str`, or a string-keyed
mapping (the only shapes the builder inspects). -/
inductive PyVal where
  | none
  | int (n : Int)
  | str (s : String)
  | dict (entries : List (String × PyVal))

/-- Python `val is None`. -/
def PyVal.isNone : PyVal → Bool
  | PyVal.none => true
  | _ => false

/-- The runtime parameter dict `params` (a value may be an explicit
`PyVal.none`, which `params.get` distinguishes from an absent key). -/
def Params : Type := List (String × PyVal)

/-- `pid in params`. -/
def paramsContains (params : Params) (k : String) : Bool :=
  (params : List (String × PyVal)).any (fun e => e.1 = k)

/-- `params.get(pid, d)`. -/
def paramsGet (params : Params) (k : String) (d : PyVal) : PyVal :=
  match (params : List (String × PyVal)) with
  | [] => d
  | e :: rest => if e.1 = k then e.2 else paramsGet rest k d

/-- `defaults.get(pid, None)` for a mapping default. -/
def dictGet (d : List (String × PyVal)) (k : String) : PyVal :=
  match d with
  | [] => PyVal.none
  | e :: rest => if e.1 = k then e.2 else dictGet rest k

/-- One filter of a view.  `whereSql` is the source's `"where"` key (a
reserved word in Lean); `enabled` models the truthiness of
`flt.get("enabled")`; `default = Option.none` means the `"default"` key is
absent (distinct from present-and-`None`, which is `some PyVal.none`);
`clause = Option.none` covers both an absent and a `None`/empty `"clause"`
key (all of which Python's `or` collapses to `"where"`). -/
structure Filter where
  id : String
  param_order : Option (List String)
  enabled : Bool
  default : Option PyVal
  clause : Option String
  whereSql : String

/-- Lines 165–174 of `sqlbuilder.py`: the resolved value for one parameter
id — the runtime value when not `None`, else a per-id lookup when the
default is a mapping, else the scalar default only when the filter has
exactly one parameter id. -/
def resolveValue (flt : Filter) (pids : List String) (params : Params)
    (pid : String) : PyVal :=
  let val := paramsGet params pid PyVal.none
  if val.isNone then
    match flt.default with
    | some (PyVal.dict d) => dictGet d pid
    | some dv => if pids.length = 1 then dv else PyVal.none
    | Option.none => PyVal.none
  else val

/-- The fallback actually used when appending binds (lines 183 and 187):
`flt.get("default", {}) if isinstance(flt.get("default", {}), dict) else
flt.get("default")` — the *whole* default mapping (or `{}` when the key is
absent), else the scalar default. -/
def bindFallback (flt : Filter) : PyVal :=
  match flt.default with
  | Option.none => PyVal.dict []
  | some (PyVal.dict d) => PyVal.dict d
  | some dv => dv

/-- Python `str.lower()` (character-wise; ASCII-faithful). -/
def strLower (s : String) : String :=
  String.mk (s.toList.map Char.toLower)

/-- Python `str.upper()` (character-wise; ASCII-faithful). -/
def strUpper (s : String) : String :=
  String.mk (s.toList.map Char.toUpper)

/-- `(flt.get("clause") or "where").lower()`. -/
def clauseOf (flt : Filter) : String :=
  strLower (match flt.clause with
    | some s => if s = "" then "where" else s
    | Option.none => "where")

/-- One iteration of the `_render_filters` loop: `Option.none` when the
filter is skipped (`continue`), otherwise whether it targets `HAVING`, its
parenthesized condition, and the binds appended for it. -/
def processFilter (flt : Filter) (params : Params) :
    Option (Bool × String × List PyVal) :=
  let pids := flt.param_order.getD [flt.id]
  let runtimeSupplied := pids.any (paramsContains params)
  if !flt.enabled && !runtimeSupplied then Option.none
  else
    let values := pids.map (resolveValue flt pids params)
    if values.all PyVal.isNone then Option.none
    else
      let binds := pids.map (fun pid =>
        paramsGet params pid (bindFallback flt))
      some (clauseOf flt == "having", "(" ++ flt.whereSql ++ ")", binds)

/-- Accumulator of `_render_filters`: the four lists built by the loop. -/
structure FilterAcc where
  whereParts : List String
  whereParams : List PyVal
  havingParts : List String
  havingParams : List PyVal

/-- Appending one filter's contribution (if any) to the accumulator. -/
def filterStep (params : Params) (acc : FilterAcc) (flt : Filter) :
    FilterAcc :=
  match processFilter flt params with
  | Option.none => acc
  | some (isHaving, part, binds) =>
    if isHaving then
      { acc with havingParts := acc.havingParts ++ [part],
                 havingParams := acc.havingParams ++ binds }
    else
      { acc with whereParts := acc.whereParts ++ [part],
                 whereParams := acc.whereParams ++ binds }

/-- `SQLBuilder._render_filters`: returns
`(where_clause, where_params, having_clause, having_params)`. -/
def renderFilters (filters : List Filter) (params : Params) :
    String × List PyVal × String × List PyVal :=
  let acc := filters.foldl (filterStep params) ⟨[], [], [], []⟩
  ((if acc.whereParts.isEmpty then ""
    else "WHERE " ++ String.intercalate " AND " acc.whereParts),
   acc.whereParams,
   (if acc.havingParts.isEmpty then ""
    else "HAVING " ++ String.intercalate " AND " acc.havingParts),
   acc.havingParams)

/-- A select item.  All fields are optional, as in the source dicts (the
renderer raises on missing required keys); `aliasName` is the source's
`"alias"` key, `distinct` the `"distinct"` flag's truthiness when the key
is present. -/
structure SelectItem where
  kind : Option String
  expr : Option String
  ref : Option String
  func : Option String
  args : Option (List String)
  distinct : Option Bool
  aliasName : Option String
  label : Option String

/-- A join spec: `jtype` is the source's `"type"` key (defaulting to
`INNER`), `onSql` the required `"on"` condition. -/
structure Join where
  jtype : Option String
  onSql : String

/-- One entry of a view's `"from"` list.  A missing `"join"` dict on a
non-first entry makes the renderer fail (Python: `j["on"]` raises). -/
structure FromItem where
  table : String
  aliasName : String
  join : Option Join

/-- A view's `"limit"` object. -/
structure Limit where
  rows : Int
  offset : Option Int

/-- An override filter entry: a partial filter dict, merged key-wise onto a
base filter by `dict.update`. -/
structure FilterPatch where
  id : Option String
  param_order : Option (List String)
  enabled : Option Bool
  default : Option PyVal
  clause : Option String
  whereSql : Option String

/-- A per-dialect override (`"overrides"` values).  Each present field
patches the corresponding view field as in `_apply_overrides`;
`fromItems` is the source's `"from"` key. -/
structure Override where
  filters : Option (List FilterPatch)
  select : Option (List SelectItem)
  select_mode : Option String
  order_by : Option (List String)
  limit : Option Limit
  connection : Option String
  fromItems : Option (List FromItem)

/-- A view definition.  `fromItems` is the source's `"from"` key;
`overrides` maps dialect names to overrides. -/
structure View where
  connection : Option String
  select : List SelectItem
  fromItems : List FromItem
  filters : List Filter
  group_by : Option (List String)
  order_by : Option (List String)
  limit : Option Limit
  overrides : List (String × Override)

/-- A catalog expression (`catalog.expressions` values). -/
structure CatalogExpr where
  by_dialect : List (String × String)
  args : List String

/-- A dialect's limit configuration. -/
structure LimitCfg where
  style : String
  template : String

/-- A dialect configuration (`dialects` values). -/
structure DialectCfg where
  limit : LimitCfg

/-- One configured connection. -/
structure Connection where
  name : String
  dialect : String

/-- The full `queries.json` dict, restricted to the keys the builder
reads.  `expressions` is `queries_cfg["catalog"]["expressions"]`. -/
structure QueriesCfg where
  default_connection : Option String
  connections : List Connection
  dialects : List (String × DialectCfg)
  expressions : List (String × CatalogExpr)

/-- `nf.update(of)` for a filter: keys present in the patch win. -/
def updateFilter (base : Filter) (p : FilterPatch) : Filter :=
  { id := p.id.getD base.id,
    param_order := p.param_order <|> base.param_order,
    enabled := p.enabled.getD base.enabled,
    default := p.default <|> base.default,
    clause := p.clause <|> base.clause,
    whereSql := p.whereSql.getD base.whereSql }

/-- An override-only filter appended verbatim (`copy.deepcopy(of)`): absent
keys behave like absent dict keys — a missing `"where"` would make Python
raise at render time; we default it to `""` (no claim exercises this
corner). -/
def patchToFilter (p : FilterPatch) : Filter :=
  { id := p.id.getD "",
    param_order := p.param_order,
    enabled := p.enabled.getD false,
    default := p.default,
    clause := p.clause,
    whereSql := p.whereSql.getD "" }

/-- The filter merge of `_apply_overrides`: base filters matched by id are
patched in place, override-only filters with a fresh truthy id are
appended in override order. -/
def mergeFilters (baseFs : List Filter) (ofs : List FilterPatch) :
    List Filter :=
  let merged := baseFs.map (fun f =>
    if f.id ≠ "" ∧ ofs.any (fun of => of.id = some f.id) then
      match ofs.find? (fun of => of.id = some f.id) with
      | some of => updateFilter f of
      | Option.none => f
    else f)
  let used := baseFs.filterMap (fun f =>
    if f.id ≠ "" ∧ ofs.any (fun of => of.id = some f.id) then some f.id
    else Option.none)
  let baseIds := baseFs.map (fun f => f.id)
  merged ++ ofs.filterMap (fun of =>
    match of.id with
    | some fid =>
      if fid = "" ∨ fid ∈ used ∨ fid ∈ baseIds then Option.none
      else some (patchToFilter of)
    | Option.none => Option.none)

/-- `nb.update(s)` for a select item. -/
def updateSelectItem (base ovr : SelectItem) : SelectItem :=
  { kind := ovr.kind <|> base.kind,
    expr := ovr.expr <|> base.expr,
    ref := ovr.ref <|> base.ref,
    func := ovr.func <|> base.func,
    args := ovr.args <|> base.args,
    distinct := ovr.distinct <|> base.distinct,
    aliasName := ovr.aliasName <|> base.aliasName,
    label := ovr.label <|> base.label }

/-- `by_alias`: index of the last base item carrying the (truthy) alias. -/
def aliasIndex (base : List SelectItem) (a : String) : Option Nat :=
  base.enum.foldl (fun acc p =>
    match p.2.aliasName with
    | some al => if al ≠ "" ∧ al = a then some p.1 else acc
    | Option.none => acc) Option.none

/-- The `merge` select mode: override items matched by alias update the
base item at its original index; unmatched items are appended. -/
def mergeSelect (base ovrSel : List SelectItem) : List SelectItem :=
  ovrSel.foldl (fun cur s =>
    match s.aliasName with
    | some a =>
      if a ≠ "" then
        match aliasIndex base a with
        | some idx =>
          match cur.get? idx with
          | some nb => cur.set idx (updateSelectItem nb s)
          | Option.none => cur
        | Option.none => cur ++ [s]
      else cur ++ [s]
    | Option.none => cur ++ [s]) base

/-- `SQLBuilder._apply_overrides`: merge the dialect's override (if any)
into the view. -/
def applyOverrides (view : View) (dialect : String) : View :=
  match lookupKey view.overrides dialect with
  | Option.none => view
  | some ovr =>
    let v1 := match ovr.filters with
      | some ofs => { view with filters := mergeFilters view.filters ofs }
      | Option.none => view
    let v2 := match ovr.select with
      | some osel =>
        if ovr.select_mode.getD "merge" = "replace" then
          { v1 with select := osel }
        else { v1 with select := mergeSelect v1.select osel }
      | Option.none => v1
    let v3 := match ovr.order_by with
      | some ob => { v2 with order_by := some ob }
      | Option.none => v2
    let v4 := match ovr.limit with
      | some lim => { v3 with limit := some lim }
      | Option.none => v3
    let v5 := match ovr.connection with
      | some cn => { v4 with connection := some cn }
      | Option.none => v4
    match ovr.fromItems with
    | some fi => { v5 with fromItems := fi }
    | Option.none => v5

/-- Positional `template.format(*args)` for catalog expression templates:
each `{}` is replaced by the next argument (extra `{}` with exhausted
arguments, which Python rejects, are left verbatim; no claim exercises
it). -/
def formatPosAux : List Char → List String → List Char
  | [], _ => []
  | '\x7b' :: '\x7d' :: rest, a :: as2 => a.toList ++ formatPosAux rest as2
  | c :: rest, as2 => c :: formatPosAux rest as2

/-- String wrapper for `formatPosAux`. -/
def formatPositional (t : String) (args : List String) : String :=
  String.mk (formatPosAux t.toList args)

/-- Substitute every occurrence of `{n}` with the given text (left to
right, non-overlapping — as `str.format` fills the `n` field). -/
def fmtNAux (nstr : List Char) : List Char → List Char
  | '\x7b' :: 'n' :: '\x7d' :: rest => nstr ++ fmtNAux nstr rest
  | c :: rest => c :: fmtNAux nstr rest
  | [] => []

/-- Substitute every occurrence of `{o}` with the given text. -/
def fmtOAux (ostr : List Char) : List Char → List Char
  | '\x7b' :: 'o' :: '\x7d' :: rest => ostr ++ fmtOAux ostr rest
  | c :: rest => c :: fmtOAux ostr rest
  | [] => []

/-- `template.format(n=rows)` for limit templates whose only field is
`{n}`. -/
def fmtN (t : String) (n : Int) : String :=
  String.mk (fmtNAux (toString n).toList t.toList)

/-- `template.format(n=rows, o=offset)` for limit templates over `{n}` and
`{o}`. -/
def fmtNO (t : String) (n o : Int) : String :=
  String.mk (fmtOAux (toString o).toList (fmtNAux (toString n).toList t.toList))

/-- `SQLBuilder._render_select_item`. -/
def renderSelectItem (cfg : QueriesCfg) (it : SelectItem)
    (dialect : String) : Except String String :=
  match it.kind with
  | some "column" =>
    match it.expr, it.aliasName with
    | some e, some a => Except.ok (e ++ " AS " ++ a)
    | _, _ => Except.error "KeyError: expr/alias"
  | some "expr" =>
    match it.ref with
    | some r =>
      match lookupKey cfg.expressions r with
      | some e =>
        match lookupKey e.by_dialect dialect with
        | some template =>
          match it.aliasName with
          | some a =>
            Except.ok (formatPositional template e.args ++ " AS " ++ a)
          | Option.none => Except.error "KeyError: alias"
        | Option.none => Except.error ("KeyError: " ++ dialect)
      | Option.none => Except.error ("KeyError: " ++ r)
    | Option.none => Except.error "KeyError: ref"
  | some "agg" =>
    match it.func, it.aliasName with
    | some fn, some a =>
      let args := it.args.getD []
      let distinct := if it.distinct.getD false then "DISTINCT " else ""
      if args.isEmpty then Except.error "agg select item requires 'args'"
      else
        Except.ok (strUpper fn ++ "(" ++ distinct ++
          String.intercalate ", " args ++ ") AS " ++ a)
    | _, _ => Except.error "KeyError: func/alias"
  | k => Except.error ("Unknown select kind: " ++ toString (k.getD "None"))

/-- `SQLBuilder._render_select`: rendered parts plus display headers
(`it.get("label", it.get("alias"))`). -/
def renderSelect (cfg : QueriesCfg) (v : View) (dialect : String) :
    Except String (List String × List (Option String)) := do
  let parts ← v.select.mapM (fun it => renderSelectItem cfg it dialect)
  let headers := v.select.map (fun it =>
    match it.label with
    | some l => some l
    | Option.none => it.aliasName)
  return (parts, headers)

/-- `SQLBuilder._render_from`. -/
def renderFrom (v : View) : Except String String :=
  match v.fromItems with
  | [] => Except.error "IndexError: from is empty"
  | base :: rest =>
    rest.foldlM (fun s f =>
      match f.join with
      | some j =>
        Except.ok (s ++ " " ++ j.jtype.getD "INNER" ++ " JOIN " ++
          f.table ++ " " ++ f.aliasName ++ " ON " ++ j.onSql)
      | Option.none => Except.error "KeyError: on")
      (" FROM " ++ base.table ++ " " ++ base.aliasName)

/-- `SQLBuilder._render_group_by`. -/
def renderGroupBy (v : View) : String :=
  match v.group_by.getD [] with
  | [] => ""
  | l => "GROUP BY " ++ String.intercalate ", " l

/-- `SQLBuilder._render_order_by`. -/
def renderOrderBy (v : View) : String :=
  match v.order_by.getD [] with
  | [] => ""
  | l => "ORDER BY " ++ String.intercalate ", " l

/-- `SQLBuilder._render_limit`: `(limit_suffix, top_prefix)`. -/
def renderLimit (cfg : QueriesCfg) (v : View) (dialect : String) :
    Except String (String × String) :=
  match v.limit with
  | Option.none => Except.ok ("", "")
  | some lim =>
    match lookupKey cfg.dialects dialect with
    | Option.none => Except.error ("KeyError: " ++ dialect)
    | some dcfg =>
      let lc := dcfg.limit
      if lc.style = "top" then
        Except.ok ("", fmtN lc.template lim.rows ++ " ")
      else if lc.style = "fetch_first" then
        Except.ok (fmtN lc.template lim.rows, "")
      else if lc.style = "limit" then
        Except.ok (fmtNO lc.template lim.rows (lim.offset.getD 0), "")
      else Except.ok ("", "")

/-- `SQLBuilder._get_connection`: linear search by name; `Option.none`
models a `None` connection name, which matches no configured entry. -/
def getConnection (cfg : QueriesCfg) (name : Option String) :
    Except String Connection :=
  match cfg.connections.find? (fun c => name = some c.name) with
  | some c => Except.ok c
  | Option.none => Except.error "Connection not found"

/-- `SQLBuilder.build`: compile a view plus runtime parameters into
`(sql, binds, headers, connection_name)`. -/
def build (cfg : QueriesCfg) (view : View) (params : Params) :
    Except String (String × List PyVal × List (Option String) × String) := do
  let connName := match view.connection with
    | some c => some c
    | Option.none => cfg.default_connection
  let conn ← getConnection cfg connName
  let dialect := conn.dialect
  let v := applyOverrides view dialect
  let sel ← renderSelect cfg v dialect
  let fromClause ← renderFrom v
  let fp := renderFilters v.filters params
  let whereClause := fp.1
  let whereParams := fp.2.1
  let havingClause := fp.2.2.1
  let havingParams := fp.2.2.2
  let groupClause := renderGroupBy v
  let orderClause := renderOrderBy v
  let lp ← renderLimit cfg v dialect
  let sql0 := "SELECT " ++ lp.2 ++ String.intercalate ", " sel.1 ++
    fromClause
  let sql1 := if whereClause ≠ "" then sql0 ++ " " ++ whereClause else sql0
  let sql2 := if groupClause ≠ "" then sql1 ++ " " ++ groupClause else sql1
  let sql3 := if havingClause ≠ "" then sql2 ++ " " ++ havingClause
    else sql2
  let sql4 := if orderClause ≠ "" then sql3 ++ " " ++ orderClause else sql3
  let sql5 := if lp.1 ≠ "" then sql4 ++ " " ++ lp.1 else sql4
  return (sql5, whereParams ++ havingParams, sel.2, connName.getD "")

/-! Concrete fixtures for the claims about `build`. -/

/-- The queries config of the spec's end-to-end scenario: one connection
`c1` (the default) with a dialect that never reaches limit rendering. -/
def cfgC2 : QueriesCfg :=
  { default_connection := some "c1",
    connections := [⟨"c1", "generic"⟩],
    dialects := [], expressions := [] }

/-- The view of the spec's end-to-end scenario: one `column` select item
(`expr "name"`, alias `"name"`), base table `people p`, and one disabled
filter `age > ?` with `param_order ["age"]`. -/
def viewC2 : View :=
  { connection := Option.none,
    select := [{ kind := some "column", expr := some "name",
                 ref := Option.none, func := Option.none,
                 args := Option.none, distinct := Option.none,
                 aliasName := some "name", label := Option.none }],
    fromItems := [⟨"people", "p", Option.none⟩],
    filters := [{ id := "f1", param_order := some ["age"], enabled := false,
                  default := Option.none, clause := Option.none,
                  whereSql := "age > ?" }],
    group_by := Option.none, order_by := Option.none,
    limit := Option.none, overrides := [] }

/-- An enabled two-parameter filter with a per-id default mapping — the
input on which the bind-appending slip of `_render_filters` shows. -/
def fltC1 : Filter :=
  { id := "f", param_order := some ["a", "b"], enabled := true,
    default := some (PyVal.dict [("a", PyVal.int 1), ("b", PyVal.int 2)]),
    clause := Option.none, whereSql := "x = ? AND y = ?" }

/-- Config with a `top`-style dialect (`TOP {n}` template). -/
def cfgTop : QueriesCfg :=
  { default_connection := some "c1",
    connections := [⟨"c1", "mssql"⟩],
    dialects := [("mssql", ⟨⟨"top", "TOP \x7bn\x7d"⟩⟩)],
    expressions := [] }

/-- The scenario view with `limit: {rows: 10}`. -/
def viewTop : View := { viewC2 with filters := [], limit := some ⟨10, Option.none⟩ }

/-- Config with a `limit`-style dialect (`LIMIT {n} OFFSET {o}`). -/
def cfgLim : QueriesCfg :=
  { default_connection := some "c1",
    connections := [⟨"c1", "pg"⟩],
    dialects := [("pg", ⟨⟨"limit", "LIMIT \x7bn\x7d OFFSET \x7bo\x7d"⟩⟩)],
    expressions := [] }

/-- The scenario view with `limit: {rows: 10, offset: 5}`. -/
def viewLim : View := { viewC2 with filters := [], limit := some ⟨10, some 5⟩ }

/-- C1 is a code bug: for each parameter id the loop resolves the value
per id (runtime value, else per-id default lookup for a mapping default) —
here `[1, 2]` — but the binds actually appended use
`params.get(pid, <whole default dict or scalar>)`, appending the entire
default mapping twice.  One bind is still appended per parameter id in
`param_order`.  This theorem evaluates the embedded code at the failing
input: filter enabled, `param_order ["a","b"]`, default
`{"a": 1, "b": 2}`, no runtime params. -/
theorem claim_C1 :
    renderFilters [fltC1] [] =
      ("WHERE (x = ? AND y = ?)",
       [PyVal.dict [("a", PyVal.int 1), ("b", PyVal.int 2)],
        PyVal.dict [("a", PyVal.int 1), ("b", PyVal.int 2)]], "", []) ∧
    (resolveValue fltC1 ["a", "b"] [] "a" = PyVal.int 1 ∧
     resolveValue fltC1 ["a", "b"] [] "b" = PyVal.int 2) ∧
    ([PyVal.dict [("a", PyVal.int 1), ("b", PyVal.int 2)],
      PyVal.dict [("a", PyVal.int 1), ("b", PyVal.int 2)]] ≠
      [PyVal.int 1, PyVal.int 2]) := by
  refine ⟨rfl, ⟨rfl, rfl⟩, ?_⟩
  intro h
  exact PyVal.noConfusion (List.cons.inj h).1

/-- C2: a filter contributes a clause and binds iff it is enabled or one of
its parameter ids is supplied at runtime, and not all resolved values are
null; and the spec's end-to-end scenarios — the disabled `age > ?` filter
activates under runtime params `{"age": 30}` yielding
`SELECT name AS name FROM people p WHERE (age > ?)` with binds `[30]`,
and stays silent with no runtime params, yielding
`SELECT name AS name FROM people p` with no binds. -/
theorem claim_C2 :
    (∀ (flt : Filter) (params : Params),
      (processFilter flt params).isSome =
        ((flt.enabled ||
            (flt.param_order.getD [flt.id]).any (paramsContains params)) &&
          !(((flt.param_order.getD [flt.id]).map
              (resolveValue flt (flt.param_order.getD [flt.id]) params)).all
            PyVal.isNone))) ∧
    build cfgC2 viewC2 [("age", PyVal.int 30)] =
      Except.ok ("SELECT name AS name FROM people p WHERE (age > ?)",
        [PyVal.int 30], [some "name"], "c1") ∧
    build cfgC2 viewC2 [] =
      Except.ok ("SELECT name AS name FROM people p", [], [some "name"],
        "c1") := by
  refine ⟨?_, rfl, rfl⟩
  intro flt params
  rcases Bool.eq_false_or_eq_true flt.enabled with he | he <;>
    rcases Bool.eq_false_or_eq_true
      ((flt.param_order.getD [flt.id]).any (paramsContains params))
      with ha | ha <;>
    rcases Bool.eq_false_or_eq_true
      (((flt.param_order.getD [flt.id]).map
        (resolveValue flt (flt.param_order.getD [flt.id]) params)).all
        PyVal.isNone) with hv | hv <;>
    simp [processFilter, he, ha, hv]

/-- C8: `_render_limit` follows the dialect's limit style — `top` renders
only a prefix (the formatted template plus a space, inserted right after
`SELECT` by `build`); `fetch_first` only a trailing clause with the row
count; `limit` only a trailing clause with row count and offset
(defaulting to 0); any other style renders nothing.  The spec's scenarios:
`TOP {n}` with rows 10 gives SQL beginning `SELECT TOP 10 `, and
`LIMIT {n} OFFSET {o}` with rows 10, offset 5 gives a trailing
`LIMIT 10 OFFSET 5`. -/
theorem claim_C8 :
    (∀ (cfg : QueriesCfg) (v : View) (dialect : String) (lim : Limit)
      (dcfg : DialectCfg),
      v.limit = some lim →
      lookupKey cfg.dialects dialect = some dcfg →
      ((dcfg.limit.style = "top" →
        renderLimit cfg v dialect =
          Except.ok ("", fmtN dcfg.limit.template lim.rows ++ " ")) ∧
       (dcfg.limit.style = "fetch_first" →
        renderLimit cfg v dialect =
          Except.ok (fmtN dcfg.limit.template lim.rows, "")) ∧
       (dcfg.limit.style = "limit" →
        renderLimit cfg v dialect =
          Except.ok
            (fmtNO dcfg.limit.template lim.rows (lim.offset.getD 0), "")) ∧
       (dcfg.limit.style ≠ "top" → dcfg.limit.style ≠ "fetch_first" →
        dcfg.limit.style ≠ "limit" →
        renderLimit cfg v dialect = Except.ok ("", "")))) ∧
    build cfgTop viewTop [] =
      Except.ok ("SELECT TOP 10 name AS name FROM people p", [],
        [some "name"], "c1") ∧
    build cfgLim viewLim [] =
      Except.ok ("SELECT name AS name FROM people p LIMIT 10 OFFSET 5", [],
        [some "name"], "c1") := by
  refine ⟨?_, rfl, rfl⟩
  intro cfg v dialect lim dcfg hlim hdcfg
  have hred : renderLimit cfg v dialect =
      (if dcfg.limit.style = "top" then
        Except.ok ("", fmtN dcfg.limit.template lim.rows ++ " ")
      else if dcfg.limit.style = "fetch_first" then
        Except.ok (fmtN dcfg.limit.template lim.rows, "")
      else if dcfg.limit.style = "limit" then
        Except.ok (fmtNO dcfg.limit.template lim.rows (lim.offset.getD 0),
          "")
      else Except.ok ("", "")) := by
    unfold renderLimit
    rw [hlim, hdcfg]
  rw [hred]
  refine ⟨?_, ?_, ?_, ?_⟩
  · intro hs
    rw [if_pos hs]
  · intro hs
    rw [if_neg (by rw [hs]; decide), if_pos hs]
  · intro hs
    rw [if_neg (by rw [hs]; decide), if_neg (by rw [hs]; decide),
      if_pos hs]
  · intro h1 h2 h3
    rw [if_neg h1, if_neg h2, if_neg h3]

/-- C8 witness: the two scenario dialect configs, with the hypotheses
discharged at the concrete view/limit. -/
theorem claim_C8_witness :
    renderLimit cfgTop viewTop "mssql" = Except.ok ("", "TOP 10 ") ∧
    renderLimit cfgLim viewLim "pg" =
      Except.ok ("LIMIT 10 OFFSET 5", "") := by
  constructor
  · have h := (claim_C8.1 cfgTop viewTop "mssql" ⟨10, Option.none⟩
      ⟨⟨"top", "TOP \x7bn\x7d"⟩⟩ rfl rfl).1 rfl
    rw [h]
    rfl
  · have h := (claim_C8.1 cfgLim viewLim "pg" ⟨10, some 5⟩
      ⟨⟨"limit", "LIMIT \x7bn\x7d OFFSET \x7bo\x7d"⟩⟩ rfl rfl).2.2.1 rfl
    rw [h]
    rfl

/-! ## ui/models.py — `ColumnFilterProxyModel`, the column filter engine

`setColumnFilter` compiles a user-typed expression into a tagged rule;
`_matches` evaluates a rule against a cell's display string.  External
library behaviour is modelled at the granularity the code uses it:

* Python `float(...)` values become `PyFloat` — exact rationals plus
  `inf`/`-inf`/`nan` with IEEE comparison semantics (`nan` compares false,
  `nan != nan` is true).  Magnitude overflow to `inf` and binary rounding
  are not modelled: parsed literals stay exact.
* `datetime.strptime` for the fixed format list becomes per-format parsers
  mirroring CPython's `_strptime` directive regexes (`%Y` exactly four
  digits; `%m`/`%d`/`%H`/`%M`/`%S` one or two digits within their ranges,
  two-digit form preferred; a literal space matches one or more whitespace
  characters; the full string must be consumed) plus the `datetime`
  constructor validation (day within the month, second ≤ 59, year ≥ 1).
  The trailing `datetime.fromisoformat` call raises `AttributeError` on
  the stated Python 3.6.9 (the method is 3.7+), which the `except`
  swallows — so it is modelled as always failing.
* Whitespace functions (`strip`, `\s`) use the ASCII whitespace set. -/

/-- Python whitespace (ASCII range of `str.strip` / regex `\s`). -/
def isPySpace (c : Char) : Bool :=
  c = ' ' || c = '\t' || c = '\n' || c = '\r' || c = '\x0b' || c = '\x0c'

/-- `str.strip()` on a character list. -/
def stripChars (l : List Char) : List Char :=
  ((l.dropWhile isPySpace).reverse.dropWhile isPySpace).reverse

/-- `str.strip()`. -/
def pyStrip (s : String) : String :=
  String.mk (stripChars s.toList)

/-- `pre` is a prefix of `s` (`str.startswith`). -/
def strStartsWith (pre s : String) : Bool :=
  pre.toList.isPrefixOf s.toList

/-- A Python float: exact finite rationals plus the special values. -/
inductive PyFloat where
  | nan
  | inf
  | ninf
  | fin (q : Rat)
  deriving DecidableEq

/-- IEEE `<=`: false on `nan`. -/
def PyFloat.le : PyFloat → PyFloat → Bool
  | PyFloat.nan, _ => false
  | _, PyFloat.nan => false
  | PyFloat.ninf, _ => true
  | _, PyFloat.ninf => false
  | _, PyFloat.inf => true
  | PyFloat.inf, _ => false
  | PyFloat.fin a, PyFloat.fin b => a ≤ b

/-- IEEE `<`: false on `nan`. -/
def PyFloat.lt : PyFloat → PyFloat → Bool
  | PyFloat.nan, _ => false
  | _, PyFloat.nan => false
  | PyFloat.ninf, PyFloat.ninf => false
  | PyFloat.ninf, _ => true
  | _, PyFloat.ninf => false
  | PyFloat.inf, _ => false
  | _, PyFloat.inf => true
  | PyFloat.fin a, PyFloat.fin b => a < b

/-- IEEE `==`: false on `nan`, even `nan == nan`. -/
def PyFloat.eqv : PyFloat → PyFloat → Bool
  | PyFloat.inf, PyFloat.inf => true
  | PyFloat.ninf, PyFloat.ninf => true
  | PyFloat.fin a, PyFloat.fin b => a = b
  | _, _ => false

/-- A digit run with PEP-515 underscores: digits, with single underscores
allowed only between digits; returns the digits (underscores dropped) and
the unconsumed remainder. -/
def digRunAux : List Char → List Char × List Char
  | [] => ([], [])
  | '_' :: rest =>
    match rest with
    | c :: rest2 =>
      if c.isDigit then
        let p := digRunAux rest2
        (c :: p.1, p.2)
      else ([], '_' :: c :: rest2)
    | [] => ([], ['_'])
  | c :: rest =>
    if c.isDigit then
      let p := digRunAux rest
      (c :: p.1, p.2)
    else ([], c :: rest)

/-- A digit run that must start with a digit. -/
def digRun (l : List Char) : List Char × List Char :=
  match l with
  | c :: rest =>
    if c.isDigit then
      let p := digRunAux rest
      (c :: p.1, p.2)
    else ([], l)
  | [] => ([], [])

/-- Value of a list of decimal digit characters. -/
def digitsToNat (ds : List Char) : Nat :=
  ds.foldl (fun acc c => acc * 10 + (c.toNat - 48)) 0

/-- Python `float(str)`: optional sign; `inf`/`infinity`/`nan`
(case-insensitive); or a decimal literal `[digits][.digits][e[±]digits]`
with at least one mantissa digit, PEP-515 underscores allowed; surrounding
whitespace ignored; anything else raises (here: `Option.none`). -/
def parseFloatChars (l : List Char) : Option PyFloat :=
  let t := stripChars l
  let sr : Bool × List Char := match t with
    | '+' :: r => (false, r)
    | '-' :: r => (true, r)
    | r => (false, r)
  let neg := sr.1
  let r := sr.2
  let low := r.map Char.toLower
  if low = ['i', 'n', 'f'] ∨ low = ['i', 'n', 'f', 'i', 'n', 'i', 't', 'y']
  then some (if neg then PyFloat.ninf else PyFloat.inf)
  else if low = ['n', 'a', 'n'] then some PyFloat.nan
  else
    let ipr := digRun r
    let ip := ipr.1
    let fpr : List Char × List Char := match ipr.2 with
      | '.' :: rf => digRun rf
      | _ => ([], ipr.2)
    let fp := fpr.1
    if ip = [] ∧ fp = [] then Option.none
    else
      let er : Bool × Bool × List Char × List Char := match fpr.2 with
        | 'e' :: re =>
          let sr2 : Bool × List Char := match re with
            | '+' :: x => (false, x)
            | '-' :: x => (true, x)
            | x => (false, x)
          let p := digRun sr2.2
          if p.1 = [] then (false, false, [], fpr.2) else (true, sr2.1, p)
        | 'E' :: re =>
          let sr2 : Bool × List Char := match re with
            | '+' :: x => (false, x)
            | '-' :: x => (true, x)
            | x => (false, x)
          let p := digRun sr2.2
          if p.1 = [] then (false, false, [], fpr.2) else (true, sr2.1, p)
        | _ => (false, false, [], fpr.2)
      if er.2.2.2 ≠ [] then Option.none
      else
        let ev := digitsToNat er.2.2.1
        let mantNum : Nat :=
          if er.1 ∧ ¬er.2.1 then
            (digitsToNat ip * 10 ^ fp.length + digitsToNat fp) * 10 ^ ev
          else digitsToNat ip * 10 ^ fp.length + digitsToNat fp
        let mantDen : Nat :=
          if er.1 ∧ er.2.1 then 10 ^ fp.length * 10 ^ ev else 10 ^ fp.length
        let m1 : Rat := mkRat (Int.ofNat mantNum) mantDen
        some (PyFloat.fin (if neg then -m1 else m1))

/-- `ColumnFilterProxyModel._parse_number`:
`float(s.replace(",", "").strip())`, `None` on failure. -/
def pyParseNumber (s : String) : Option PyFloat :=
  parseFloatChars (s.toList.filter (fun c => !(c = ',')))

/-- A `datetime.datetime` value (time components all zero for date-only
formats; microseconds never arise here). -/
structure PyDateTime where
  year : Nat
  month : Nat
  day : Nat
  hour : Nat
  minute : Nat
  second : Nat
  deriving DecidableEq, BEq

/-- Lexicographic `<=` on datetimes, as Python compares them. -/
def PyDateTime.le (a b : PyDateTime) : Bool :=
  if a.year ≠ b.year then a.year < b.year
  else if a.month ≠ b.month then a.month < b.month
  else if a.day ≠ b.day then a.day < b.day
  else if a.hour ≠ b.hour then a.hour < b.hour
  else if a.minute ≠ b.minute then a.minute < b.minute
  else a.second ≤ b.second

/-- Lexicographic `<` on datetimes. -/
def PyDateTime.lt (a b : PyDateTime) : Bool :=
  if a.year ≠ b.year then a.year < b.year
  else if a.month ≠ b.month then a.month < b.month
  else if a.day ≠ b.day then a.day < b.day
  else if a.hour ≠ b.hour then a.hour < b.hour
  else if a.minute ≠ b.minute then a.minute < b.minute
  else a.second < b.second

/-- Days in a month (with Gregorian leap years), as validated by the
`datetime` constructor. -/
def daysInMonth (y m : Nat) : Nat :=
  if m = 2 then
    (if y % 4 = 0 ∧ (y % 100 ≠ 0 ∨ y % 400 = 0) then 29 else 28)
  else if m = 4 ∨ m = 6 ∨ m = 9 ∨ m = 11 then 30 else 31

/-- The `datetime(...)` constructor's validation: year in 1..9999, day
within the month, second ≤ 59 (strptime's `%S` admits 60/61, which the
constructor then rejects). -/
def mkDatetime (y mo d h mi s : Nat) : Option PyDateTime :=
  if 1 ≤ y ∧ y ≤ 9999 ∧ d ≤ daysInMonth y mo ∧ s ≤ 59 then
    some ⟨y, mo, d, h, mi, s⟩
  else Option.none

/-- `%Y`: exactly four digits. -/
def parse4Y : List Char → Option (Nat × List Char)
  | a :: b :: c :: d :: rest =>
    if a.isDigit ∧ b.isDigit ∧ c.isDigit ∧ d.isDigit then
      some (digitsToNat [a, b, c, d], rest)
    else Option.none
  | _ => Option.none

/-- A one-or-two digit directive: the two-digit reading is preferred when
its value lies in `[lo2, hi2]`, else a single digit in `[lo1, hi1]`
(mirrors the `_strptime` alternation regexes). -/
def parse2or1 (lo2 hi2 lo1 hi1 : Nat) : List Char → Option (Nat × List Char)
  | a :: b :: rest =>
    if a.isDigit ∧ b.isDigit ∧ lo2 ≤ digitsToNat [a, b] ∧
        digitsToNat [a, b] ≤ hi2 then
      some (digitsToNat [a, b], rest)
    else if a.isDigit ∧ lo1 ≤ digitsToNat [a] ∧ digitsToNat [a] ≤ hi1 then
      some (digitsToNat [a], b :: rest)
    else Option.none
  | [a] =>
    if a.isDigit ∧ lo1 ≤ digitsToNat [a] ∧ digitsToNat [a] ≤ hi1 then
      some (digitsToNat [a], [])
    else Option.none
  | [] => Option.none

/-- A literal format character. -/
def parseLit (ch : Char) : List Char → Option (List Char)
  | c :: rest => if c = ch then some rest else Option.none
  | [] => Option.none

/-- A literal space in a format: one or more whitespace characters. -/
def parseWs1 : List Char → Option (List Char)
  | c :: rest =>
    if isPySpace c then some (rest.dropWhile isPySpace) else Option.none
  | [] => Option.none

/-- `%Y-%m-%d`. -/
def parseYmd (l : List Char) : Option ((Nat × Nat × Nat) × List Char) := do
  let (y, r1) ← parse4Y l
  let r2 ← parseLit '-' r1
  let (m, r3) ← parse2or1 1 12 1 9 r2
  let r4 ← parseLit '-' r3
  let (d, r5) ← parse2or1 1 31 1 9 r4
  pure ((y, m, d), r5)

/-- `%d/%m/%Y`. -/
def parseDmy (l : List Char) : Option ((Nat × Nat × Nat) × List Char) := do
  let (d, r1) ← parse2or1 1 31 1 9 l
  let r2 ← parseLit '/' r1
  let (m, r3) ← parse2or1 1 12 1 9 r2
  let r4 ← parseLit '/' r3
  let (y, r5) ← parse4Y r4
  pure ((y, m, d), r5)

/-- `%m/%d/%Y`. -/
def parseMdy (l : List Char) : Option ((Nat × Nat × Nat) × List Char) := do
  let (m, r1) ← parse2or1 1 12 1 9 l
  let r2 ← parseLit '/' r1
  let (d, r3) ← parse2or1 1 31 1 9 r2
  let r4 ← parseLit '/' r3
  let (y, r5) ← parse4Y r4
  pure ((y, m, d), r5)

/-- `%H:%M`. -/
def parseHM (l : List Char) : Option ((Nat × Nat) × List Char) := do
  let (h, r1) ← parse2or1 0 23 0 9 l
  let r2 ← parseLit ':' r1
  let (m, r3) ← parse2or1 0 59 0 9 r2
  pure ((h, m), r3)

/-- `%H:%M:%S`. -/
def parseHMS (l : List Char) :
    Option ((Nat × Nat × Nat) × List Char) := do
  let (h, r1) ← parse2or1 0 23 0 9 l
  let r2 ← parseLit ':' r1
  let (m, r3) ← parse2or1 0 59 0 9 r2
  let r4 ← parseLit ':' r3
  let (s, r5) ← parse2or1 0 61 0 9 r4
  pure ((h, m, s), r5)

/-- A date-only format: the whole string must be consumed. -/
def fmtD (dp : List Char → Option ((Nat × Nat × Nat) × List Char))
    (l : List Char) : Option PyDateTime :=
  match dp l with
  | some ((y, m, d), []) => mkDatetime y m d 0 0 0
  | _ => Option.none

/-- A `<date> %H:%M` format (the literal space matches `\s+`). -/
def fmtD_HM (dp : List Char → Option ((Nat × Nat × Nat) × List Char))
    (l : List Char) : Option PyDateTime := do
  let (ymd, r1) ← dp l
  let r2 ← parseWs1 r1
  let (hm, r3) ← parseHM r2
  if r3 = [] then mkDatetime ymd.1 ymd.2.1 ymd.2.2 hm.1 hm.2 0
  else Option.none

/-- A `<date> %H:%M:%S` format. -/
def fmtD_HMS (dp : List Char → Option ((Nat × Nat × Nat) × List Char))
    (l : List Char) : Option PyDateTime := do
  let (ymd, r1) ← dp l
  let r2 ← parseWs1 r1
  let (hms, r3) ← parseHMS r2
  if r3 = [] then
    mkDatetime ymd.1 ymd.2.1 ymd.2.2 hms.1 hms.2.1 hms.2.2
  else Option.none

/-- `%Y-%m-%dT%H:%M`. -/
def fmtDT_HM (l : List Char) : Option PyDateTime := do
  let (ymd, r1) ← parseYmd l
  let r2 ← parseLit 'T' r1
  let (hm, r3) ← parseHM r2
  if r3 = [] then mkDatetime ymd.1 ymd.2.1 ymd.2.2 hm.1 hm.2 0
  else Option.none

/-- `%Y-%m-%dT%H:%M:%S`. -/
def fmtDT_HMS (l : List Char) : Option PyDateTime := do
  let (ymd, r1) ← parseYmd l
  let r2 ← parseLit 'T' r1
  let (hms, r3) ← parseHMS r2
  if r3 = [] then
    mkDatetime ymd.1 ymd.2.1 ymd.2.2 hms.1 hms.2.1 hms.2.2
  else Option.none

/-- `"T "` → `"T"`, left to right, non-overlapping (the second step of the
source's `s.replace("t", "T").replace("T ", "T")` normalization). -/
def dropTSpace : List Char → List Char
  | 'T' :: ' ' :: rest => 'T' :: dropTSpace rest
  | c :: rest => c :: dropTSpace rest
  | [] => []

/-- `ColumnFilterProxyModel._parse_datetime`: strip, normalize the `T`
separator, then try the fixed format list in order (the final
`fromisoformat` attempt always raises on Python 3.6.9 and is swallowed). -/
def pyParseDatetime (s : String) : Option PyDateTime :=
  let t0 := stripChars s.toList
  let t1 := t0.map (fun c => if c = 't' then 'T' else c)
  let t := dropTSpace t1
  fmtD parseYmd t <|> fmtD_HM parseYmd t <|> fmtD_HMS parseYmd t <|>
  fmtD parseDmy t <|> fmtD_HM parseDmy t <|> fmtD_HMS parseDmy t <|>
  fmtD parseMdy t <|> fmtD_HM parseMdy t <|> fmtD_HMS parseMdy t <|>
  fmtDT_HM t <|> fmtDT_HMS t

/-- `-` or `/`, the date separators of the heuristic. -/
def isSep (c : Char) : Bool := c = '-' || c = '/'

/-- After `digit sep`, the rest of the date-shape regex (one-to-four
digits, a `-` or `/` separator, one or two digits, a separator, one to
four digits): either `digit sep digit` or `digit digit sep digit`. -/
def digitSepAfter : List Char → Bool
  | a :: b :: rest =>
    if a.isDigit then
      if isSep b then
        (match rest with
         | d :: _ => d.isDigit
         | [] => false)
      else if b.isDigit then
        (match rest with
         | s2 :: d :: _ => isSep s2 && d.isDigit
         | _ => false)
      else false
    else false
  | _ => false

/-- `re.search` of the digit-separator date shape: some position starts a
digit, a `-` or `/` separator, and a one-or-two digit group followed by a
separator and a digit. -/
def digitSepScan : List Char → Bool
  | c1 :: c2 :: rest =>
    (c1.isDigit && isSep c2 && digitSepAfter rest) || digitSepScan (c2 :: rest)
  | _ => false

/-- A word character for the regex `\b` boundary (ASCII). -/
def isWordChar (c : Char) : Bool := c.isAlpha || c.isDigit || c = '_'

/-- One of the twelve month abbreviations. -/
def isMonthTriple (a b c : Char) : Bool :=
  ([a, b, c] = ['j', 'a', 'n']) || ([a, b, c] = ['f', 'e', 'b']) ||
  ([a, b, c] = ['m', 'a', 'r']) || ([a, b, c] = ['a', 'p', 'r']) ||
  ([a, b, c] = ['m', 'a', 'y']) || ([a, b, c] = ['j', 'u', 'n']) ||
  ([a, b, c] = ['j', 'u', 'l']) || ([a, b, c] = ['a', 'u', 'g']) ||
  ([a, b, c] = ['s', 'e', 'p']) || ([a, b, c] = ['o', 'c', 't']) ||
  ([a, b, c] = ['n', 'o', 'v']) || ([a, b, c] = ['d', 'e', 'c'])

/-- `re.search` of `\b(jan|feb|…)\b` over the lower-cased string: a month
abbreviation delimited by word boundaries. -/
def monthScanAux (prevIsWord : Bool) : List Char → Bool
  | a :: b :: c :: rest =>
    (!prevIsWord && isMonthTriple a b c &&
      (match rest with
       | d :: _ => !isWordChar d
       | [] => true)) ||
    monthScanAux (isWordChar a) (b :: c :: rest)
  | _ => false

/-- `ColumnFilterProxyModel._looks_like_date`: digit groups separated by
`-`/`/`, a month abbreviation, or a letter `t` in the lower-cased,
stripped string. -/
def looksLikeDate (s : String) : Bool :=
  let l := (stripChars s.toList).map Char.toLower
  digitSepScan l || monthScanAux false l || l.contains 't'

/-- `_cmp_re` (`^\s*(<=|>=|<|>|==|=|!=)\s*(.+?)\s*$`): the operator (tried
in the alternation's order) and the trimmed operand.  The operand must be
nonempty and must not contain a newline (regex `.` cannot cross one; a
trailing run of whitespace is absorbed by `\s*$`). -/
def cmpMatch (s : List Char) : Option (String × List Char) :=
  let t := s.dropWhile isPySpace
  let opRest : Option (String × List Char) := match t with
    | '<' :: '=' :: r => some ("<=", r)
    | '>' :: '=' :: r => some (">=", r)
    | '<' :: r => some ("<", r)
    | '>' :: r => some (">", r)
    | '=' :: '=' :: r => some ("==", r)
    | '=' :: r => some ("=", r)
    | '!' :: '=' :: r => some ("!=", r)
    | _ => Option.none
  match opRest with
  | Option.none => Option.none
  | some (op, rest) =>
    let rhs := stripChars rest
    if rhs = [] ∨ rhs.contains '\n' then Option.none
    else some (op, rhs)

/-- `-?\d[\d,]*`: one numeric-range side without its optional fraction. -/
def parseNumSideBase : List Char → Option (List Char × List Char)
  | '-' :: c :: rest =>
    if c.isDigit then
      let p := (c :: rest).span (fun x => x.isDigit || x = ',')
      some ('-' :: p.1, p.2)
    else Option.none
  | c :: rest =>
    if c.isDigit then
      let p := (c :: rest).span (fun x => x.isDigit || x = ',')
      some (p.1, p.2)
    else Option.none
  | [] => Option.none

/-- `(?:\.\d+)?`: the optional fraction of a numeric-range side. -/
def parseFracOpt : List Char → Option (List Char × List Char)
  | '.' :: c :: rest =>
    if c.isDigit then
      let p := (c :: rest).span (fun x => x.isDigit)
      some ('.' :: p.1, p.2)
    else Option.none
  | _ => Option.none

/-- `\s*\.\.\s*`, requiring the two dots. -/
def parseDots (l : List Char) : Option (List Char) :=
  match l.dropWhile isPySpace with
  | '.' :: '.' :: r => some (r.dropWhile isPySpace)
  | _ => Option.none

/-- `_num_rng_re`
(`^\s*(-?\d[\d,]*(?:\.\d+)?)\s*\.\.\s*(-?\d[\d,]*(?:\.\d+)?)\s*$`): both
sides as matched text.  (`.` never follows the digit/comma class, so the
greedy pieces never need to backtrack.) -/
def numRngMatch (s : List Char) : Option (List Char × List Char) :=
  let t := s.dropWhile isPySpace
  match parseNumSideBase t with
  | Option.none => Option.none
  | some (g1b, r1) =>
    let p1 : List Char × List Char := match parseFracOpt r1 with
      | some (f, rf) => (g1b ++ f, rf)
      | Option.none => (g1b, r1)
    match parseDots p1.2 with
    | Option.none => Option.none
    | some r2 =>
      match parseNumSideBase r2 with
      | Option.none => Option.none
      | some (g2b, r3) =>
        let p2 : List Char × List Char := match parseFracOpt r3 with
          | some (f, rf) => (g2b ++ f, rf)
          | Option.none => (g2b, r3)
        if p2.2.all isPySpace then some (p1.1, p2.1) else Option.none

/-- The lazy split of `_any_rng_re` (`^\s*(.+?)\s*\.\.\s*(.+?)\s*$`): the
shortest nonempty prefix after which (skipping whitespace) `..` follows. -/
def anyRngSplitAux (accRev : List Char) : List Char →
    Option (List Char × List Char)
  | [] => Option.none
  | c :: rest =>
    let accRev' := c :: accRev
    match rest.dropWhile isPySpace with
    | '.' :: '.' :: r2 => some (accRev'.reverse, r2)
    | _ => anyRngSplitAux accRev' rest

/-- `_any_rng_re` on the (already stripped) input: the first group and the
trimmed remainder after `..`, both nonempty. -/
def anyRngMatch (s : List Char) : Option (List Char × List Char) :=
  let t := s.dropWhile isPySpace
  match anyRngSplitAux [] t with
  | some (g1, r2) =>
    let g2 := stripChars r2
    if g2 = [] then Option.none else some (g1, g2)
  | Option.none => Option.none

/-- A compiled column filter rule — the tagged tuples stored in
`self._filters`. -/
inductive Rule where
  | substr (patt : String)
  | regex (patt : String)
  | num_cmp (op : String) (t : PyFloat)
  | num_rng (lo hi : PyFloat)
  | dt_cmp (op : String) (t : PyDateTime)
  | dt_rng (lo hi : PyDateTime)
  deriving DecidableEq

/-- `s.split(":", 1)[1]`: everything after the first colon. -/
def afterColon (s : String) : String :=
  String.mk ((s.toList.dropWhile (fun c => !(c = ':'))).tail)

/-- `ColumnFilterProxyModel.setColumnFilter`, as the rule it stores for
the column: `Option.none` when the filter is cleared (a `None` or blank
pattern). -/
def compileFilter (pattern : Option String) : Option Rule :=
  match pattern with
  | Option.none => Option.none
  | some p =>
    let s := pyStrip p
    if s = "" then Option.none
    else if strStartsWith "re:" (strLower s) then
      some (Rule.regex (String.mk (s.toList.drop 3)))
    else
      let fds : Bool × String :=
        if strStartsWith "date:" (strLower s) ∨
            strStartsWith "dt:" (strLower s) then
          (true, pyStrip (afterColon s))
        else (false, s)
      let forceDate := fds.1
      let s2 := fds.2
      match cmpMatch s2.toList with
      | some (op, rhsChars) =>
        let rhs := String.mk rhsChars
        let dtRule : Option Rule :=
          if forceDate || looksLikeDate rhs then
            match pyParseDatetime rhs with
            | some dt => some (Rule.dt_cmp op dt)
            | Option.none => Option.none
          else Option.none
        match dtRule with
        | some r => some r
        | Option.none =>
          match pyParseNumber rhs with
          | some num => some (Rule.num_cmp op num)
          | Option.none => some (Rule.substr s2)
      | Option.none =>
        let numRule : Option Rule :=
          match numRngMatch s2.toList with
          | some (g1, g2) =>
            match pyParseNumber (String.mk g1),
                pyParseNumber (String.mk g2) with
            | some a, some b =>
              if PyFloat.le a b then some (Rule.num_rng a b)
              else some (Rule.num_rng b a)
            | _, _ => Option.none
          | Option.none => Option.none
        match numRule with
        | some r => some r
        | Option.none =>
          let dtRule : Option Rule :=
            match anyRngMatch s2.toList with
            | some (g1, g2) =>
              if forceDate || looksLikeDate (String.mk g1) ||
                  looksLikeDate (String.mk g2) then
                match pyParseDatetime (String.mk g1),
                    pyParseDatetime (String.mk g2) with
                | some a, some b =>
                  if PyDateTime.le a b then some (Rule.dt_rng a b)
                  else some (Rule.dt_rng b a)
                | _, _ => Option.none
              else Option.none
            | Option.none => Option.none
          match dtRule with
          | some r => some r
          | Option.none => some (Rule.substr s2)

/-- `ColumnFilterProxyModel._compare` for numbers (unknown operators yield
`False`). -/
def numCompare (v : PyFloat) (op : String) (t : PyFloat) : Bool :=
  if op = "=" ∨ op = "==" then PyFloat.eqv v t
  else if op = "!=" then !(PyFloat.eqv v t)
  else if op = "<" then PyFloat.lt v t
  else if op = "<=" then PyFloat.le v t
  else if op = ">" then PyFloat.lt t v
  else if op = ">=" then PyFloat.le t v
  else false

/-- `ColumnFilterProxyModel._compare_dt`. -/
def dtCompare (v : PyDateTime) (op : String) (t : PyDateTime) : Bool :=
  if op = "=" ∨ op = "==" then v == t
  else if op = "!=" then !(v == t)
  else if op = "<" then PyDateTime.lt v t
  else if op = "<=" then PyDateTime.le v t
  else if op = ">" then PyDateTime.lt t v
  else if op = ">=" then PyDateTime.le t v
  else false

/-- `pat` occurs as a contiguous sublist of `l`. -/
def listInfix (pat : List Char) : List Char → Bool
  | [] => pat.isEmpty
  | c :: rest => pat.isPrefixOf (c :: rest) || listInfix pat rest

/-- Models `QRegExp(patt, Qt.CaseInsensitive).indexIn(text) >= 0` for the
patterns this code meets: literal text, optionally anchored at the start
with `^`. -/
def qregexSearch (patt text : String) : Bool :=
  match patt.toList with
  | '^' :: lit =>
    (lit.map Char.toLower).isPrefixOf (text.toList.map Char.toLower)
  | lit => listInfix (lit.map Char.toLower) (text.toList.map Char.toLower)

/-- `ColumnFilterProxyModel._matches`: evaluate a rule against a cell
value (`Option.none` is a null cell, rendered as `""`).  Total — a value
that fails to parse in a numeric/date rule yields `false`, never an
error. -/
def matchesRule (rule : Rule) (value : Option String) : Bool :=
  let text := value.getD ""
  match rule with
  | Rule.substr patt =>
    listInfix ((strLower patt).toList) ((strLower text).toList)
  | Rule.regex patt => qregexSearch patt text
  | Rule.num_cmp op t =>
    match pyParseNumber text with
    | some v => numCompare v op t
    | Option.none => false
  | Rule.num_rng lo hi =>
    match pyParseNumber text with
    | some v => PyFloat.le lo v && PyFloat.le v hi
    | Option.none => false
  | Rule.dt_cmp op t =>
    match pyParseDatetime text with
    | some v => dtCompare v op t
    | Option.none => false
  | Rule.dt_rng lo hi =>
    match pyParseDatetime text with
    | some v => PyDateTime.le lo v && PyDateTime.le v hi
    | Option.none => false

/-- C6: the spec's filter-expression round trips.  `compile("5")` yields
the (substring) rule that matches `"5"` and `"5.0"` but not `"6"`;
`compile("re:^A")` matches `"Apple"` but not `"banana"`;
`compile("100..200")` yields the numeric range matching `"150"` but not
`"250"`; `compile(">= 2024-01-01")` yields the date compare matching
`"2024-06-01"` but not `"2023-12-31"`. -/
theorem claim_C6 :
    (compileFilter (some "5") = some (Rule.substr "5") ∧
     matchesRule (Rule.substr "5") (some "5") = true ∧
     matchesRule (Rule.substr "5") (some "5.0") = true ∧
     matchesRule (Rule.substr "5") (some "6") = false) ∧
    (compileFilter (some "re:^A") = some (Rule.regex "^A") ∧
     matchesRule (Rule.regex "^A") (some "Apple") = true ∧
     matchesRule (Rule.regex "^A") (some "banana") = false) ∧
    (compileFilter (some "100..200") =
        some (Rule.num_rng (PyFloat.fin 100) (PyFloat.fin 200)) ∧
     matchesRule (Rule.num_rng (PyFloat.fin 100) (PyFloat.fin 200))
        (some "150") = true ∧
     matchesRule (Rule.num_rng (PyFloat.fin 100) (PyFloat.fin 200))
        (some "250") = false) ∧
    (compileFilter (some ">= 2024-01-01") =
        some (Rule.dt_cmp ">=" ⟨2024, 1, 1, 0, 0, 0⟩) ∧
     matchesRule (Rule.dt_cmp ">=" ⟨2024, 1, 1, 0, 0, 0⟩)
        (some "2024-06-01") = true ∧
     matchesRule (Rule.dt_cmp ">=" ⟨2024, 1, 1, 0, 0, 0⟩)
        (some "2023-12-31") = false) := by
  exact ⟨⟨rfl, rfl, rfl, rfl⟩, ⟨rfl, rfl, rfl⟩, ⟨rfl, rfl, rfl⟩,
    ⟨rfl, rfl, rfl⟩⟩

/-- C7: once a rule is committed to a numeric or date kind, a cell whose
string form fails to parse (including the null cell rendered as `""`)
makes `_matches` evaluate to `false` — never to an error (`matchesRule` is
total). -/
theorem claim_C7 :
    ∀ (op : String) (t : PyFloat) (lo hi : PyFloat) (op2 : String)
      (t2 lo2 hi2 : PyDateTime) (value : Option String),
      (pyParseNumber (value.getD "") = Option.none →
        matchesRule (Rule.num_cmp op t) value = false ∧
        matchesRule (Rule.num_rng lo hi) value = false) ∧
      (pyParseDatetime (value.getD "") = Option.none →
        matchesRule (Rule.dt_cmp op2 t2) value = false ∧
        matchesRule (Rule.dt_rng lo2 hi2) value = false) ∧
      (matchesRule (Rule.num_cmp op t) Option.none = false ∧
       matchesRule (Rule.num_rng lo hi) Option.none = false ∧
       matchesRule (Rule.dt_cmp op2 t2) Option.none = false ∧
       matchesRule (Rule.dt_rng lo2 hi2) Option.none = false) := by
  intro op t lo hi op2 t2 lo2 hi2 value
  refine ⟨?_, ?_, rfl, rfl, rfl, rfl⟩
  · intro h
    constructor <;> simp [matchesRule, h]
  · intro h
    constructor <;> simp [matchesRule, h]

/-- C7 witness: the unparseable cell `"abc"` under each typed rule kind. -/
theorem claim_C7_witness :
    (pyParseNumber "abc" = Option.none ∧
     matchesRule (Rule.num_cmp "=" (PyFloat.fin 5)) (some "abc") = false ∧
     matchesRule (Rule.num_rng (PyFloat.fin 0) (PyFloat.fin 1))
        (some "abc") = false) ∧
    (pyParseDatetime "abc" = Option.none ∧
     matchesRule (Rule.dt_cmp "=" ⟨2024, 1, 1, 0, 0, 0⟩)
        (some "abc") = false ∧
     matchesRule (Rule.dt_rng ⟨2024, 1, 1, 0, 0, 0⟩ ⟨2024, 12, 31, 0, 0, 0⟩)
        (some "abc") = false) := by
  have h1 := (claim_C7 "=" (PyFloat.fin 5) (PyFloat.fin 0) (PyFloat.fin 1)
    "=" ⟨2024, 1, 1, 0, 0, 0⟩ ⟨2024, 1, 1, 0, 0, 0⟩ ⟨2024, 12, 31, 0, 0, 0⟩
    (some "abc")).1 (by rfl)
  have h2 := (claim_C7 "=" (PyFloat.fin 5) (PyFloat.fin 0) (PyFloat.fin 1)
    "=" ⟨2024, 1, 1, 0, 0, 0⟩ ⟨2024, 1, 1, 0, 0, 0⟩ ⟨2024, 12, 31, 0, 0, 0⟩
    (some "abc")).2.1 (by rfl)
  exact ⟨⟨rfl, h1.1, h1.2⟩, ⟨rfl, h2.1, h2.2⟩⟩

end OdbcViewer
